import Mathlib

/-!
Shallow embedding of the `schemable` validation/loading library
(`src/schemable/validators.py`, `schema.py`, `transforms.py`, `base.py`)
together with proofs about the behaviour of its compiled schema nodes.

Python dynamic values are modelled by the inductive `PyVal`; the handful of
builtin types the library touches are modelled by `PyType`.  User-supplied
callables are modelled as total functions returning either a value or a
raised exception (class name and message); the library's `Validate` and `As`
wrappers catch every such exception, so no separate uncaught-exception
channel is needed.  Side effects of user callables are made observable
through an explicit event trace returned by the evaluator.
-/

namespace Schemable

/-- Builtin Python types that appear in the library and its test-suite
specs: `int`, `bool`, `str`, `list`, `collections.abc.Mapping`,
`NoneType` and `object`. -/
inductive PyType
  | intT
  | boolT
  | strT
  | listT
  | mappingT
  | noneT
  | objT
deriving DecidableEq

/-- Python runtime values.  `optObj` models an `Optional(...)` wrapper
object itself used as a raw dictionary key (its Python `__eq__`/`__hash__`
delegate to the wrapped key value), `pytype`/`typeTuple` model type objects
and tuples of type objects, which occur as raw specs and error keys. -/
inductive PyVal
  | int (n : Int)
  | str (s : String)
  | bool (b : Bool)
  | none
  | list (xs : List PyVal)
  | dict (kvs : List (PyVal × PyVal))
  | pytype (t : PyType)
  | typeTuple (ts : List PyType)
  | optObj (inner : PyVal)

/-- Name of a `PyType` as produced by Python's `__name__`. -/
def pyTypeName : PyType → String
  | .intT => "int"
  | .boolT => "bool"
  | .strT => "str"
  | .listT => "list"
  | .mappingT => "Mapping"
  | .noneT => "NoneType"
  | .objT => "object"

/-- Qualified name of a `PyType` as it appears inside Python's `repr` of the
type object. -/
def pyTypeQualName : PyType → String
  | .mappingT => "collections.abc.Mapping"
  | t => pyTypeName t

/-- Python `isinstance` for the modelled values and types; note that `bool`
is a subclass of `int`. -/
def isinst : PyVal → PyType → Bool
  | _, .objT => true
  | .int _, .intT => true
  | .bool _, .intT => true
  | .bool _, .boolT => true
  | .str _, .strT => true
  | .list _, .listT => true
  | .dict _, .mappingT => true
  | .none, .noneT => true
  | _, _ => false

/-- Python `isinstance(v, ts)` against a tuple of types. -/
def isinstAny (v : PyVal) (ts : List PyType) : Bool :=
  ts.any (isinst v)

/-- Python truthiness (`bool(v)`) of the modelled values. -/
def pyTruthy : PyVal → Bool
  | .int n => n != 0
  | .str s => s ≠ ""
  | .bool b => b
  | .none => false
  | .list xs => !xs.isEmpty
  | .dict kvs => !kvs.isEmpty
  | .pytype _ => true
  | .typeTuple _ => true
  | .optObj _ => true

/-- Python's `type(v).__name__` for the modelled values. -/
def pyTypeOfName : PyVal → String
  | .int _ => "int"
  | .str _ => "str"
  | .bool _ => "bool"
  | .none => "NoneType"
  | .list _ => "list"
  | .dict _ => "dict"
  | .pytype _ => "type"
  | .typeTuple _ => "tuple"
  | .optObj _ => "Optional"

/-- A single-quote character as a string (used by `pyRepr` for strings). -/
def sq : String := String.singleton (Char.ofNat 39)

/-- Python `sep.join(parts)`. -/
def joinSep (sep : String) : List String → String
  | [] => ""
  | [s] => s
  | s :: rest => s ++ sep ++ joinSep sep rest

mutual

/-- Python `repr` of the modelled values (used by the library's error
message formatting through `{!r}`). -/
def pyRepr : PyVal → String
  | .int n => toString n
  | .str s => sq ++ s ++ sq
  | .bool b => if b then "True" else "False"
  | .none => "None"
  | .list xs => "[" ++ pyReprList xs ++ "]"
  | .dict kvs => "\x7b" ++ pyReprPairs kvs ++ "\x7d"
  | .pytype t => "<class " ++ sq ++ pyTypeQualName t ++ sq ++ ">"
  | .typeTuple ts =>
      match ts with
      | [t] => "(<class " ++ sq ++ pyTypeQualName t ++ sq ++ ">,)"
      | _ => "(" ++ joinSep ", "
          (ts.map (fun t => "<class " ++ sq ++ pyTypeQualName t ++ sq ++ ">")) ++ ")"
  | .optObj v => "Optional(" ++ pyRepr v ++ ")"

/-- Comma-separated `repr`s of list elements. -/
def pyReprList : List PyVal → String
  | [] => ""
  | [x] => pyRepr x
  | x :: xs => pyRepr x ++ ", " ++ pyReprList xs

/-- Comma-separated `repr(k): repr(v)` renderings of dict items. -/
def pyReprPairs : List (PyVal × PyVal) → String
  | [] => ""
  | [(k, v)] => pyRepr k ++ ": " ++ pyRepr v
  | (k, v) :: kvs => pyRepr k ++ ": " ++ pyRepr v ++ ", " ++ pyReprPairs kvs

end

/-- Python `str(v)`: like `repr` except that strings are rendered without
quotes. -/
def pyStr : PyVal → String
  | .str s => s
  | v => pyRepr v

mutual

/-- Python `==` on the modelled values: `bool` compares equal to the
corresponding `int`, `Optional` wrapper objects compare through their
wrapped value, lists compare elementwise and dicts compare length plus
key-by-key (sufficient for dicts whose keys are pairwise distinct, which
Python guarantees). -/
def pyEq : PyVal → PyVal → Bool
  | .optObj a, b => pyEq a b
  | a, .optObj b => pyEq a b
  | .int n, .int m => n == m
  | .bool a, .bool b => a == b
  | .int n, .bool b => n == (if b then 1 else 0)
  | .bool b, .int n => (if b then (1 : Int) else 0) == n
  | .str a, .str b => a == b
  | .none, .none => true
  | .pytype a, .pytype b => a == b
  | .typeTuple a, .typeTuple b => a == b
  | .list a, .list b => pyEqList a b
  | .dict a, .dict b => a.length == b.length && pyEqPairs a b
  | _, _ => false
termination_by a b => sizeOf a + sizeOf b
decreasing_by all_goals (simp_wf; try omega)

/-- Elementwise Python `==` of two lists. -/
def pyEqList : List PyVal → List PyVal → Bool
  | [], [] => true
  | a :: as', b :: bs' => pyEq a b && pyEqList as' bs'
  | _, _ => false
termination_by a b => sizeOf a + sizeOf b
decreasing_by all_goals (simp_wf; try omega)

/-- Every item of the first dict is found (by key equality) in the second
with an equal value. -/
def pyEqPairs : List (PyVal × PyVal) → List (PyVal × PyVal) → Bool
  | [], _ => true
  | (k, v) :: rest, b => pyFindEq b k v && pyEqPairs rest b
termination_by a b => sizeOf a + sizeOf b
decreasing_by all_goals (simp_wf; try omega)

/-- The dict `b` contains key `k` (by Python `==`) with a value equal to
`v`. -/
def pyFindEq : List (PyVal × PyVal) → PyVal → PyVal → Bool
  | [], _, _ => false
  | (k', v') :: rest, k, v =>
      if pyEq k' k then pyEq v' v else pyFindEq rest k v
termination_by b k v => sizeOf b + sizeOf k + sizeOf v
decreasing_by all_goals (simp_wf; try omega)

end

/-- Python `v is None` (identity test against the `None` singleton). -/
def isNone : PyVal → Bool
  | .none => true
  | _ => false

/-- The `errors` component of a `SchemaResult`: Python `None`, an error
message string, or a dict mapping keys/indices to sub-errors. -/
inductive PyErr
  | none
  | msg (s : String)
  | map (kvs : List (PyVal × PyErr))

/-- Python truthiness of an `errors` value (`if result.errors:`). -/
def errTruthy : PyErr → Bool
  | .none => false
  | .msg s => s ≠ ""
  | .map kvs => !kvs.isEmpty

/-- The `SchemaResult(data, errors)` named tuple of `base.py`; Python `None`
data is represented by `PyVal.none`. -/
structure SchemaResult where
  data : PyVal
  errors : PyErr

/-- Observable side effects of one evaluation (or compilation): invocations
of user-supplied callables. -/
inductive Event
  | callValidate (name : String) (arg : PyVal)
  | callAs (name : String) (arg : PyVal)
  | callUse (name : String)
  | callGen (name : String)

/-- Traces of callable invocations in execution order. -/
abbrev Trace := List Event

/-- A raised Python exception: class name and message (`str(exc)`). -/
structure PyExc where
  cls : String
  msg : String

/-- A user-supplied callable of one argument together with the label the
library uses for it in error messages (`spec_name`). The callable either
returns a value or raises an exception. -/
structure PyCallable where
  name : String
  fn : PyVal → Except PyExc PyVal

/-- The spec of a `Use` node inside the compiled evaluator: a constant,
or a zero-argument callable that returns — modelled by its return value
plus its label.  A callable that raises is NOT represented here: since
`Use.__call__` has no exception handling and `Schema.__call__` catches
only `AssertionError`, any other exception such a callable raises aborts
the whole evaluation with a raw exception instead of producing a
`SchemaResult`; that path is modelled separately by `UseCallable` and
`schemaCallUse` below. -/
structure UseSpec where
  isCall : Bool
  name : String
  ret : PyVal

/-- A user-supplied zero-argument `Use` callable with its invocation
outcome: the value it returns, or the exception it raises
(`Use.__call__`, transforms.py lines 18-21, invokes `self.schema()` with
no try/except of its own). -/
structure UseCallable where
  name : String
  call : Except PyExc PyVal

/-- What the caller of `Schema.__call__` observes: a returned
`SchemaResult`, or an exception that propagated uncaught. -/
inductive CallOutcome
  | returns (r : SchemaResult)
  | raises (e : PyExc)

/-- `Schema.__call__` (schema.py lines 63-81, non-strict) around a `Use`
schema with a callable spec: `Use.__call__` invokes the callable bare,
so `Schema.__call__` receives whatever it raises; only an
`AssertionError` is caught and converted to `SchemaResult(None,
str(exc))`, a raw return value is wrapped as `SchemaResult(value,
None)`, and every other exception class propagates uncaught out of the
call. -/
def schemaCallUse (u : UseCallable) : CallOutcome :=
  match u.call with
  | .ok v => .returns ⟨v, .none⟩
  | .error e =>
      if e.cls = "AssertionError" then .returns ⟨.none, .msg e.msg⟩
      else .raises e

/-- The `extra` keys policy of `Dict` (`ALLOW_EXTRA = True`,
`DENY_EXTRA = False`, `IGNORE_EXTRA = None`, the default). -/
inductive Extra
  | allow
  | deny
  | ignore

/-- The compiled form of a `Dict` key spec: a `Value` node (payload) or a
`Type` node (compiled tuple of types plus the raw type-or-tuple spec
object). -/
inductive KeyKind
  | val (v : PyVal)
  | typ (ts : List PyType) (raw : PyVal)

/-- A compiled `Dict` key schema: the wrapped `Value`/`Type` node plus
whether the key spec was wrapped in `Optional`. -/
structure KeySchema where
  kind : KeyKind
  opt : Bool

/-- The raw spec under the compiled key node (`key_schema.schema.spec`):
the literal payload, or the raw type / tuple-of-types object. -/
def keyRawUnder (k : KeySchema) : PyVal :=
  match k.kind with
  | .val v => v
  | .typ _ raw => raw

/-- The raw spec of the key schema wrapper (`key_schema.spec`): for an
`Optional`-wrapped key this is the `Optional` object itself. -/
def keyRawTop (k : KeySchema) : PyVal :=
  if k.opt then .optObj (keyRawUnder k) else keyRawUnder k

/-- The value a key schema compares equal to under Python `==`
(`Value` compares via its payload, `Type` via its compiled tuple of types;
`Optional` delegates to the wrapped node). -/
def kindKeyVal (k : KeySchema) : PyVal :=
  match k.kind with
  | .val v => v
  | .typ ts _ => .typeTuple ts

/-- Python `key_schema == x` for a raw value `x`. -/
def keyWrapperEqVal (k : KeySchema) (x : PyVal) : Bool :=
  pyEq (kindKeyVal k) x

/-- Python `==` between two key schema wrapper objects. -/
def ksBeq (a b : KeySchema) : Bool :=
  pyEq (kindKeyVal a) (kindKeyVal b)

/-- Whether the input key validates against the key schema
(`not key_schema(key).errors`). -/
def keyAccepts (k : KeySchema) (x : PyVal) : Bool :=
  match k.kind with
  | .val v => pyEq x v
  | .typ ts _ => isinstAny x ts

/-- Compiled schema nodes, mirroring the validator classes of
`validators.py`/`transforms.py`.  `listN` stores the compiled `All`
pipeline node of the element spec; `dictN` stores the (priority-ordered)
key/value schema pairs, the extra-keys policy and the compiled `defaults`
mapping (raw optional key spec to the default value computed at
construction time); `selectN` stores the compiled `All` pipeline of `As`
steps. -/
inductive Node
  | value (v : PyVal)
  | typeN (ts : List PyType)
  | listN (elem : Node)
  | dictN (entries : List (KeySchema × Node)) (extra : Extra)
      (defaults : List (PyVal × PyVal))
  | allN (ns : List Node)
  | anyN (ns : List Node)
  | validate (c : PyCallable)
  | useN (u : UseSpec)
  | asN (c : PyCallable)
  | selectN (steps : List Node)

/-- Python `==` between two distinct compiled value-schema wrapper objects
(used by the duplicate check `value_schema not in value_schemas`): `Value`
and `Type` nodes compare through `_HashableSchema` via their payload /
compiled tuple, all other node classes fall back to object identity, which
is `False` for distinct objects. -/
def nodeBeq (a b : Node) : Bool :=
  match a, b with
  | .value v, .value w => pyEq v w
  | .typeN ts, .typeN us => pyEq (.typeTuple ts) (.typeTuple us)
  | .value v, .typeN us => pyEq v (.typeTuple us)
  | .typeN ts, .value w => pyEq (.typeTuple ts) w
  | _, _ => false

/-- The `Value` error message
(`'value error, expected {!r} but found {!r}'`). -/
def valueErrMsg (expected found : PyVal) : String :=
  "value error, expected " ++ pyRepr expected ++ " but found " ++ pyRepr found

/-- The `Validate` failure message
(`'{}({!r}) should evaluate to True'`). -/
def validateErrMsg (name : String) (x : PyVal) : String :=
  name ++ "(" ++ pyRepr x ++ ") should evaluate to True"

/-- The `As` failure message
(`'{}({!r}) should not raise an exception: {}: {}'`). -/
def asErrMsg (name : String) (x : PyVal) (cls msg : String) : String :=
  name ++ "(" ++ pyRepr x ++ ") should not raise an exception: " ++
    cls ++ ": " ++ msg

/-- Case-insensitive-stable insertion of a string into a sorted list
(mirrors `sorted(..., key=lambda n: n.lower())`). -/
def insertCI (s : String) : List String → List String
  | [] => [s]
  | t :: ts => if s.toLower ≤ t.toLower then s :: t :: ts else t :: insertCI s ts

/-- Stable sort of strings by their lower-cased form. -/
def sortCI (l : List String) : List String :=
  l.foldr insertCI []

/-- The `Type` error message: expected type names sorted
case-insensitively and joined by `" or "`, and the found value's runtime
type name. -/
def typeErrMsg (ts : List PyType) (found : PyVal) : String :=
  "type error, expected " ++ joinSep " or " (sortCI (ts.map pyTypeName)) ++
    " but found " ++ pyTypeOfName found

/-- Python dict assignment `d[k] = v`: update in place when an equal key
exists (keeping the original key object and position), else append. -/
def assocUpdate (l : List (PyVal × α)) (k : PyVal) (v : α) :
    List (PyVal × α) :=
  match l with
  | [] => [(k, v)]
  | (k', v') :: rest =>
      if pyEq k' k then (k', v) :: rest else (k', v') :: assocUpdate rest k v

/-- Python dict lookup by `==`. -/
def assocFind (l : List (PyVal × α)) (k : PyVal) : Option α :=
  match l with
  | [] => Option.none
  | (k', v') :: rest => if pyEq k' k then some v' else assocFind rest k

/-- Python `d.setdefault(k, v)`: append at the end when the key is
missing. -/
def assocSetDefault (l : List (PyVal × α)) (k : PyVal) (v : α) :
    List (PyVal × α) :=
  match assocFind l k with
  | some _ => l
  | Option.none => l ++ [(k, v)]

/-- An element of the `seen` set of `Dict.__call__`: either a raw value
(input key or usable key spec) or a key schema wrapper object. -/
inductive SeenItem
  | v (x : PyVal)
  | ks (k : KeySchema)

/-- Python `key in seen` for a raw value (set membership by `==`). -/
def seenHasVal (seen : List SeenItem) (x : PyVal) : Bool :=
  seen.any fun it =>
    match it with
    | .v w => pyEq x w
    | .ks k => keyWrapperEqVal k x

/-- Python membership of a key schema wrapper in `seen` (used by the
required-keys check `self.required - seen`). -/
def seenHasKS (seen : List SeenItem) (k : KeySchema) : Bool :=
  seen.any fun it =>
    match it with
    | .v w => pyEq (kindKeyVal k) w
    | .ks k' => ksBeq k k'

/-- The mutable evaluation state of `Dict.__call__`: output `data`,
`errors` and the `seen` set. -/
structure DState where
  data : List (PyVal × PyVal)
  errors : List (PyVal × PyErr)
  seen : List SeenItem

/-- Wrap a string sub-error with the `"bad value: "` message; dict
sub-errors are kept as they are. -/
def wrapErr : PyErr → PyErr
  | .msg s => .msg ("bad value: " ++ s)
  | e => e

/-- The body of `Dict._extend_with_result`: record the wrapped error when
the sub-result failed, store the (possibly partial) data unless the
sub-result failed with no data, and mark the key as seen. -/
def extendWithResult (k : PyVal) (r : SchemaResult) (st : DState) : DState :=
  let st1 :=
    if errTruthy r.errors then
      { st with errors := assocUpdate st.errors k (wrapErr r.errors) }
    else st
  let st2 :=
    if !isNone r.data || !errTruthy r.errors then
      { st1 with data := assocUpdate st1.data k r.data }
    else st1
  { st2 with seen := st2.seen ++ [.v k] }

/-- Whether a compiled value schema's spec is a `Use` instance
(`Select` is a subclass of `Use`). -/
def isUsable : Node → Bool
  | .useN _ => true
  | .selectN _ => true
  | _ => false

/-- Python `key in self.schema` followed by `self.schema[key]`: the value
schema of the unique key schema comparing equal to the input key, if
any. -/
def dictLookup (entries : List (KeySchema × Node)) (k : PyVal) :
    Option Node :=
  match entries with
  | [] => Option.none
  | (ks, v) :: rest =>
      if keyWrapperEqVal ks k then some v else dictLookup rest k

/-- The probing loop of `Dict.__call__` (lines 201-209): walk every
key/value schema pair in order, skip `Use`-valued pairs, and for every key
schema that accepts the input key collect its value schema (without
duplicates) and mark the key schema as seen. -/
def dictProbeAux (k : PyVal) (es : List (KeySchema × Node))
    (accVs : List Node) (accKs : List KeySchema) :
    List Node × List KeySchema :=
  match es with
  | [] => (accVs, accKs)
  | (ks, v) :: rest =>
      if isUsable v then dictProbeAux k rest accVs accKs
      else if keyAccepts ks k then
        let accVs' := if accVs.any (nodeBeq · v) then accVs else accVs ++ [v]
        dictProbeAux k rest accVs' (accKs ++ [ks])
      else dictProbeAux k rest accVs accKs

/-- The value schemas and probe-matched key schemas for one input key. -/
def dictProbe (es : List (KeySchema × Node)) (k : PyVal) :
    List Node × List KeySchema :=
  dictProbeAux k es [] []

/-- String rendering of a key schema wrapper (`str(Schema(...))`), the
sort key of `Dict.compile`'s `self.keys`: `Type` nodes print their name or
tuple of names, every other node prints `str` of its raw spec. -/
def keyStrOf (k : KeySchema) : String :=
  match k.opt, k.kind with
  | true, _ => pyStr (keyRawUnder k)
  | false, .val v => pyStr v
  | false, .typ ts raw =>
      match raw with
      | .pytype t => pyTypeName t
      | _ => "(" ++ String.intercalate ", " (ts.map pyTypeName) ++ ")"

/-- Stable insertion into a list of key schemas sorted by `keyStrOf`. -/
def insertByStr (k : KeySchema) : List KeySchema → List KeySchema
  | [] => [k]
  | k' :: rest =>
      if keyStrOf k ≤ keyStrOf k' then k :: k' :: rest
      else k' :: insertByStr k rest

/-- `self.keys`: the key schemas sorted by their string rendering. -/
def sortKeys (entries : List (KeySchema × Node)) : List KeySchema :=
  (entries.map Prod.fst).foldr insertByStr []

/-- The `DENY_EXTRA` error message
(`'bad key: not in {}'.format([k.schema.spec for k in self.keys])`). -/
def badKeyMsg (entries : List (KeySchema × Node)) : String :=
  "bad key: not in [" ++
    joinSep ", " ((sortKeys entries).map (fun k => pyRepr (keyRawUnder k)))
    ++ "]"

/-- The missing-required-keys pass of `Dict.__call__` (lines 243-247):
every non-optional key schema not marked seen contributes a
`'missing required key'` error keyed by its raw underlying spec. -/
def applyMissing (entries : List (KeySchema × Node)) (st : DState) : DState :=
  entries.foldl
    (fun st e =>
      if !e.1.opt && !seenHasKS st.seen e.1 then
        { st with
          errors := assocUpdate st.errors (keyRawUnder e.1)
            (.msg "missing required key") }
      else st)
    st

/-- The defaults pass of `Dict.__call__` (lines 249-251):
`data.setdefault(key, default)` for every recorded default. -/
def applyDefaults (defaults : List (PyVal × PyVal)) (st : DState) : DState :=
  defaults.foldl (fun st kv => { st with data := assocSetDefault st.data kv.1 kv.2 }) st

theorem sizeOf_list_append {α : Type} [SizeOf α] (l m : List α) :
    sizeOf (l ++ m) + 1 = sizeOf l + sizeOf m := by
  induction l with
  | nil => simp; omega
  | cons a l ih => simp [List.cons_append]; omega

theorem dictLookup_sizeOf {k : PyVal} {v : Node} :
    ∀ {entries : List (KeySchema × Node)},
      dictLookup entries k = some v → sizeOf v < sizeOf entries := by
  intro entries h
  induction entries with
  | nil => simp [dictLookup] at h
  | cons e rest ih =>
      obtain ⟨ks, w⟩ := e
      simp only [dictLookup] at h
      split at h
      · injection h with h
        subst h
        simp only [List.cons.sizeOf_spec, Prod.mk.sizeOf_spec]
        omega
      · have := ih h
        simp only [List.cons.sizeOf_spec, Prod.mk.sizeOf_spec]
        omega

theorem dictProbeAux_sizeOf (k : PyVal) :
    ∀ (es : List (KeySchema × Node)) (accVs : List Node)
      (accKs : List KeySchema),
      sizeOf (dictProbeAux k es accVs accKs).1 + 1 ≤ sizeOf accVs + sizeOf es := by
  intro es
  induction es with
  | nil =>
      intro accVs accKs
      simp [dictProbeAux]
  | cons e rest ih =>
      intro accVs accKs
      obtain ⟨ks, v⟩ := e
      simp only [dictProbeAux]
      split
      · have := ih accVs accKs
        simp only [List.cons.sizeOf_spec, Prod.mk.sizeOf_spec]
        omega
      · split
        · split
          · have := ih accVs (accKs ++ [ks])
            simp only [List.cons.sizeOf_spec, Prod.mk.sizeOf_spec]
            omega
          · have := ih (accVs ++ [v]) (accKs ++ [ks])
            have happ := sizeOf_list_append accVs [v]
            simp only [List.cons.sizeOf_spec, Prod.mk.sizeOf_spec,
              List.nil.sizeOf_spec] at happ ⊢
            omega
        · have := ih accVs accKs
          simp only [List.cons.sizeOf_spec, Prod.mk.sizeOf_spec]
          omega

theorem keySchema_sizeOf_pos (k : KeySchema) : 0 < sizeOf k := by
  cases k
  simp_arith

theorem dictProbe_fst_sizeOf_lt (es : List (KeySchema × Node)) (k : PyVal)
    (h : (dictProbe es k).1 ≠ []) : sizeOf (dictProbe es k).1 < sizeOf es := by
  cases es with
  | nil =>
      simp [dictProbe, dictProbeAux] at h
  | cons e rest =>
      obtain ⟨ks, v⟩ := e
      have hks := keySchema_sizeOf_pos ks
      unfold dictProbe
      simp only [dictProbeAux, List.any_nil, Bool.false_eq_true, if_false,
        List.nil_append]
      split
      · have := dictProbeAux_sizeOf k rest [] []
        simp only [List.cons.sizeOf_spec, Prod.mk.sizeOf_spec,
          List.nil.sizeOf_spec] at this ⊢
        omega
      · split
        · have := dictProbeAux_sizeOf k rest [v] [ks]
          simp only [List.cons.sizeOf_spec, Prod.mk.sizeOf_spec,
            List.nil.sizeOf_spec] at this ⊢
          omega
        · have := dictProbeAux_sizeOf k rest [] []
          simp only [List.cons.sizeOf_spec, Prod.mk.sizeOf_spec,
            List.nil.sizeOf_spec] at this ⊢
          omega

mutual

/-- Direct evaluation of a node (`node.__call__(obj)` in Python): either a
`SchemaResult` or a raised `AssertionError` message, plus the trace of
callable invocations.  Mirrors `Value`, `Type`, `Validate`, `As`, `Use`,
`Select`, `List`, `Dict`, `All` and `Any` `__call__` bodies. -/
def nodeEval (n : Node) (x : PyVal) : Except String SchemaResult × Trace :=
  match n with
  | .value c =>
      (if pyEq x c then .ok ⟨x, .none⟩ else .error (valueErrMsg c x), [])
  | .typeN ts =>
      (if isinstAny x ts then .ok ⟨x, .none⟩ else .error (typeErrMsg ts x), [])
  | .validate c =>
      let ret := match c.fn x with
        | .ok v => v
        | .error _ => .bool false
      ((if !pyTruthy ret && !isNone ret then
          .error (validateErrMsg c.name x)
        else .ok ⟨x, .none⟩), [.callValidate c.name x])
  | .asN c =>
      (match c.fn x with
        | .ok v => .ok ⟨v, .none⟩
        | .error e => .error (asErrMsg c.name x e.cls e.msg),
       [.callAs c.name x])
  | .useN u =>
      (.ok ⟨u.ret, .none⟩, if u.isCall then [.callUse u.name] else [])
  | .allN ns =>
      let p := allSteps ns ⟨x, .none⟩
      (.ok p.1, p.2)
  | .anyN ns =>
      let p := anySteps ns x ⟨x, .none⟩
      (.ok p.1, p.2)
  | .selectN steps =>
      match x with
      | .dict _ =>
          let p := allSteps steps ⟨x, .none⟩
          (.ok p.1, p.2)
      | _ => (.error (typeErrMsg [.mappingT] x), [])
  | .listN elem =>
      match x with
      | .list xs =>
          let p := listItems elem 0 xs
          (.ok ⟨(if p.1.isEmpty && !p.2.1.isEmpty then .none else .list p.1),
            .map p.2.1⟩, p.2.2)
      | _ => (.error (typeErrMsg [.listT] x), [])
  | .dictN entries extra defaults =>
      match x with
      | .dict items =>
          let p1 := dictUsables entries x ⟨[], [], []⟩
          let p2 := dictItems entries extra items p1.1
          let st3 := applyMissing entries p2.1
          let st4 := applyDefaults defaults st3
          let fdata :=
            if st4.data.isEmpty &&
                (errTruthy (.map st4.errors) || !pyEq (.dict st4.data) x) then
              PyVal.none
            else .dict st4.data
          (.ok ⟨fdata, .map st4.errors⟩, p1.2 ++ p2.2)
      | _ => (.error (typeErrMsg [.mappingT] x), [])
termination_by (sizeOf n, 0, 0)

/-- Evaluation of a node through its `Schema` wrapper
(`Schema.__call__`): an `AssertionError` becomes
`SchemaResult(None, str(exc))`. -/
def runSchema (n : Node) (x : PyVal) : SchemaResult × Trace :=
  let p := nodeEval n x
  (match p.1 with
    | .ok r => r
    | .error m => ⟨.none, .msg m⟩, p.2)
termination_by (sizeOf n, 1, 0)

/-- The pipeline loop of `All.__call__`: feed each node the previous
result's data and stop at the first result with truthy errors. -/
def allSteps (ns : List Node) (r : SchemaResult) : SchemaResult × Trace :=
  match ns with
  | [] => (r, [])
  | n :: rest =>
      let p := runSchema n r.data
      if errTruthy p.1.errors then (p.1, p.2)
      else
        let q := allSteps rest p.1
        (q.1, p.2 ++ q.2)
termination_by (sizeOf ns, 2, 0)

/-- The alternatives loop of `Any.__call__`: each attempt receives the
previous result's data when it is not `None`, else the original input, and
the loop stops at the first result with no truthy errors. -/
def anySteps (ns : List Node) (obj : PyVal) (r : SchemaResult) :
    SchemaResult × Trace :=
  match ns with
  | [] => (r, [])
  | n :: rest =>
      let d := if !isNone r.data then r.data else obj
      let p := runSchema n d
      if !errTruthy p.1.errors then (p.1, p.2)
      else
        let q := anySteps rest obj p.1
        (q.1, p.2 ++ q.2)
termination_by (sizeOf ns, 2, 0)

/-- The element loop of `List.__call__`: per index, failed results
contribute a wrapped error keyed by the index, and non-`None` data is
appended to the output sequence. -/
def listItems (elem : Node) (idx : Nat) (items : List PyVal) :
    List PyVal × List (PyVal × PyErr) × Trace :=
  match items with
  | [] => ([], [], [])
  | v :: rest =>
      let p := runSchema elem v
      let q := listItems elem (idx + 1) rest
      ((if !isNone p.1.data then [p.1.data] else []) ++ q.1,
       (if errTruthy p.1.errors then [(PyVal.int idx, wrapErr p.1.errors)]
        else []) ++ q.2.1,
       p.2 ++ q.2.2)
termination_by (sizeOf elem, 2, sizeOf items)

/-- `Dict._extend_with_usables`: every `Use`-valued entry is evaluated
against the whole input object, its key schema is marked seen, and the
result is recorded under the entry's raw key spec. -/
def dictUsables (es : List (KeySchema × Node)) (obj : PyVal) (st : DState) :
    DState × Trace :=
  match es with
  | [] => (st, [])
  | (ks, v) :: rest =>
      if isUsable v then
        let p := runSchema v obj
        let st' := extendWithResult (keyRawTop ks) p.1
          { st with seen := st.seen ++ [.ks ks] }
        let q := dictUsables rest obj st'
        (q.1, p.2 ++ q.2)
      else dictUsables rest obj st
termination_by (sizeOf es, 2, 0)

/-- Handling of one input key/value pair in `Dict.__call__`: skip
already-seen keys, use the exact-matching value schema alone when the key
is in the schema dict, otherwise probe all key schemas and evaluate the
single candidate directly or the multiple candidates as an `Any`; with no
candidate, apply the extra-keys policy. -/
def dictHandleItem (entries : List (KeySchema × Node)) (extra : Extra)
    (kv : PyVal × PyVal) (st : DState) : DState × Trace :=
  if seenHasVal st.seen kv.1 then (st, [])
  else if hL : (dictLookup entries kv.1).isSome then
    let p := runSchema ((dictLookup entries kv.1).get hL) kv.2
    (extendWithResult kv.1 p.1 st, p.2)
  else
    let vs := (dictProbe entries kv.1).1
    if hE : vs.isEmpty then
      match extra with
      | .allow => ({ st with data := assocUpdate st.data kv.1 kv.2 }, [])
      | .deny =>
          ({ st with
            errors := assocUpdate st.errors kv.1
              (.msg (badKeyMsg entries)) }, [])
      | .ignore => (st, [])
    else
      let st' := { st with
        seen := st.seen ++ (dictProbe entries kv.1).2.map SeenItem.ks }
      if vs.length = 1 then
        let p := runSchema (vs.headD (.value .none)) kv.2
        (extendWithResult kv.1 p.1 st', p.2)
      else
        let p := anySteps vs kv.2 ⟨kv.2, .none⟩
        (extendWithResult kv.1 p.1 st', p.2)
termination_by (sizeOf entries, 3, 0)
decreasing_by
  all_goals simp_wf
  · apply Prod.Lex.left
    exact dictLookup_sizeOf (Option.some_get hL).symm
  · apply Prod.Lex.left
    have hne : (dictProbe entries kv.1).1 ≠ [] := by
      intro h0
      apply hE
      show (dictProbe entries kv.1).1.isEmpty = true
      rw [h0]
      rfl
    have h1 := dictProbe_fst_sizeOf_lt entries kv.1 hne
    have h2 : sizeOf ((dictProbe entries kv.1).1.head?.getD
        (Node.value PyVal.none)) < sizeOf (dictProbe entries kv.1).1 := by
      cases hv : (dictProbe entries kv.1).1 with
      | nil => exact absurd hv hne
      | cons a rest =>
          simp
          omega
    omega
  · apply Prod.Lex.left
    have hne : (dictProbe entries kv.1).1 ≠ [] := by
      intro h0
      apply hE
      show (dictProbe entries kv.1).1.isEmpty = true
      rw [h0]
      rfl
    exact dictProbe_fst_sizeOf_lt entries kv.1 hne

/-- The input-items loop of `Dict.__call__`. -/
def dictItems (entries : List (KeySchema × Node)) (extra : Extra)
    (items : List (PyVal × PyVal)) (st : DState) : DState × Trace :=
  match items with
  | [] => (st, [])
  | kv :: rest =>
      let p := dictHandleItem entries extra kv st
      let q := dictItems entries extra rest p.1
      (q.1, p.2 ++ q.2)
termination_by (sizeOf entries, 4, sizeOf items)

end

/-- The `default` argument of an `Optional` key spec: absent (`NotSet`), a
constant, or a zero-argument callable.  A callable default is modelled as a
function of a global invocation counter, so that distinct invocations are
distinguishable. -/
inductive DefaultSpec
  | notSet
  | const (v : PyVal)
  | gen (name : String) (g : Nat → PyVal)

/-- A `Dict` key spec before `Dict.compile` runs: the compiled key node
data plus the optionality flag and the raw default spec carried by
`Optional`. -/
structure PreKey where
  kind : KeyKind
  opt : Bool
  dflt : DefaultSpec

/-- `Dict._spec_priority_sort_key`: `-1` when the compiled key schema node
is a `Value` instance (an `Optional` node is not), else `-2`. -/
def specPrioritySortKey (e : PreKey × Node) : Int :=
  match e.1.opt, e.1.kind with
  | false, .val _ => -1
  | _, _ => -2

/-- The ordering pass of `Dict.compile` (lines 144-148): Python's `sorted`
is stable, and the sort key takes only the two values `-2` and `-1`, so the
sorted list is the `-2` (non-`Value`-keyed) entries in original order
followed by the `-1` (`Value`-keyed) entries in original order. -/
def dictPrioritySort (es : List (PreKey × Node)) : List (PreKey × Node) :=
  es.filter (fun e => specPrioritySortKey e == -2) ++
    es.filter (fun e => specPrioritySortKey e == -1)

/-- One access of the `Optional.default` property: a callable default is
invoked (advancing the global invocation counter and logging a `callGen`
event); `NotSet` is returned as `Option.none`. -/
def defaultProp (d : DefaultSpec) (ctr : Nat) :
    Option PyVal × Nat × Trace :=
  match d with
  | .notSet => (Option.none, ctr, [])
  | .const v => (some v, ctr, [])
  | .gen name g => (some (g ctr), ctr + 1, [.callGen name])

/-- The defaults comprehension of `Dict.compile` (lines 153-156): for every
`Optional`-wrapped key, the `default` property is accessed once for the
`is not NotSet` test and, when that test passes, accessed a second time for
the stored value — so a callable default is invoked twice at construction
time and the second invocation's result is stored. -/
def compileDefaults (es : List (PreKey × Node)) (ctr : Nat) :
    List (PyVal × PyVal) × Nat × Trace :=
  match es with
  | [] => ([], ctr, [])
  | e :: rest =>
      if e.1.opt then
        let p1 := defaultProp e.1.dflt ctr
        match p1.1 with
        | Option.none =>
            let q := compileDefaults rest p1.2.1
            (q.1, q.2.1, p1.2.2 ++ q.2.2)
        | some _ =>
            let p2 := defaultProp e.1.dflt p1.2.1
            match p2.1 with
            | some v =>
                let q := compileDefaults rest p2.2.1
                ((keyRawUnder ⟨e.1.kind, e.1.opt⟩, v) :: q.1, q.2.1,
                  p1.2.2 ++ p2.2.2 ++ q.2.2)
            | Option.none =>
                let q := compileDefaults rest p2.2.1
                (q.1, q.2.1, p1.2.2 ++ p2.2.2 ++ q.2.2)
      else
        let q := compileDefaults rest ctr
        (q.1, q.2.1, q.2.2)

/-- `Dict.compile`: order the key/value schema pairs by priority, then
record the computed defaults (invoking callable defaults at construction
time); the result is the compiled `dictN` node, the advanced invocation
counter and the trace of construction-time callable invocations. -/
def dictCompile (pres : List (PreKey × Node)) (extra : Extra) (ctr : Nat) :
    Node × Nat × Trace :=
  let sorted := dictPrioritySort pres
  let d := compileDefaults sorted ctr
  (.dictN (sorted.map (fun e => (⟨e.1.kind, e.1.opt⟩, e.2))) extra d.1,
    d.2.1, d.2.2)

/-- The data loaded by a sequence schema, described element by element:
per input element, the element result's data when it is not `None`. -/
def listLoadedData (elem : Node) (xs : List PyVal) : List PyVal :=
  xs.filterMap fun v =>
    let r := (runSchema elem v).1
    if isNone r.data then Option.none else some r.data

/-- The error map produced by a sequence schema, described element by
element: an entry for exactly every index whose element result has truthy
errors, string sub-errors wrapped with `"bad value: "`. -/
def listIndexedErrors (elem : Node) (idx : Nat) (xs : List PyVal) :
    List (PyVal × PyErr) :=
  match xs with
  | [] => []
  | v :: rest =>
      let r := (runSchema elem v).1
      (if errTruthy r.errors then [(PyVal.int idx, wrapErr r.errors)] else [])
        ++ listIndexedErrors elem (idx + 1) rest

/-- The outcome a `Dict` schema computes for one input key/value pair from
that pair alone: the exact-matching value schema when the key is in the
schema dict, else the single probed candidate, else the probed candidates
combined as an `Any`; `Option.none` when no key schema matches. -/
def dictItemResult (entries : List (KeySchema × Node)) (kv : PyVal × PyVal) :
    Option SchemaResult :=
  match dictLookup entries kv.1 with
  | some vnode => some (runSchema vnode kv.2).1
  | Option.none =>
      match (dictProbe entries kv.1).1 with
      | [] => Option.none
      | [single] => some (runSchema single kv.2).1
      | vs => some (anySteps vs kv.2 ⟨kv.2, .none⟩).1

/-- The input handed to the next `Any` alternative, given the previous
attempt's result and the original input
(`result.data if result.data is not None else obj`). -/
def nextInput (r : SchemaResult) (obj : PyVal) : PyVal :=
  if !isNone r.data then r.data else obj

/-- Ordinary input keys: not a type object, tuple of types or `Optional`
wrapper object (such keys can compare equal to key-schema wrapper objects
and interact with the `seen` bookkeeping in exotic ways). -/
def plainKey : PyVal → Bool
  | .pytype _ => false
  | .typeTuple _ => false
  | .optObj _ => false
  | _ => true

/-- Sufficient independence conditions for one input key `k` of a mapping
input with respect to a compiled `Dict` schema and the other input keys
`others`: the key equals itself, is an ordinary value, compares unequal
(in both directions) with every other input key and with every
`Use`-valued entry's raw key spec, and compares symmetrically with every
literal key schema payload (as for all builtin Python values). -/
def dictKeyFree (entries : List (KeySchema × Node)) (others : List PyVal)
    (k : PyVal) : Bool :=
  pyEq k k && plainKey k &&
  others.all (fun x => !pyEq k x && !pyEq x k) &&
  entries.all (fun e =>
    (!(isUsable e.2) || (!pyEq k (keyRawTop e.1) && !pyEq (keyRawTop e.1) k)) &&
    (match e.1.kind with
     | .val p => (pyEq k p == pyEq p k) &&
         others.all (fun x => pyEq x p == pyEq p x)
     | .typ _ raw => !pyEq k raw && !pyEq raw k))

/-- No member of the `seen` set compares equal to the input key `k`
(no `.v` entry in the `k`-to-member direction, no key-schema wrapper in
the member-to-`k` direction), so the key is not skipped and the required
check cannot treat a matching literal entry as seen through it. -/
def seenFreeFor (k : PyVal) (seen : List SeenItem) : Prop :=
  ∀ it ∈ seen,
    (match it with
     | .v w => pyEq k w = false ∧ pyEq w k = false
     | .ks e => pyEq (kindKeyVal e) k = false)

/-- Every key of the association list is either syntactically `k` or
compares unequal to `k`. -/
def keysFreeFor {α : Type} (k : PyVal) (l : List (PyVal × α)) : Prop :=
  ∀ p ∈ l, p.1 = k ∨ pyEq p.1 k = false

/-- Whether an event is a `Use` callable invocation. -/
def isCallUse : Event → Bool
  | .callUse _ => true
  | _ => false

/-- Whether an event is a default-generator invocation. -/
def isCallGen : Event → Bool
  | .callGen _ => true
  | _ => false

mutual

/-- Schema nodes built only from literal, type and predicate leaves
combined with `All` and `Any`: on these, successful evaluation returns the
input unchanged and failed evaluation carries no data. -/
def stableNode : Node → Bool
  | .value _ => true
  | .typeN _ => true
  | .validate _ => true
  | .allN ns => stableList ns
  | .anyN ns => stableList ns
  | _ => false

/-- All nodes of the list are stable. -/
def stableList : List Node → Bool
  | [] => true
  | n :: rest => stableNode n && stableList rest

end

/-- The state held by `Dict.__call__` right before the final
`SchemaResult` is assembled: usables pass, input-items loop, missing-keys
pass and defaults pass, starting from empty `data`/`errors`/`seen`. -/
def dictFinalState (entries : List (KeySchema × Node)) (extra : Extra)
    (defaults : List (PyVal × PyVal)) (items : List (PyVal × PyVal)) :
    DState :=
  applyDefaults defaults (applyMissing entries
    (dictItems entries extra items
      (dictUsables entries (.dict items) ⟨[], [], []⟩).1).1)

@[simp]
theorem stringAppendEqEmpty (s t : String) :
    (s ++ t = "") ↔ (s = "" ∧ t = "") := by
  constructor
  · intro he
    have hl := congrArg String.length he
    rw [String.length_append] at hl
    have h0 : s.length + t.length = 0 := by simpa using hl
    have hs : s.length = 0 := by omega
    have ht : t.length = 0 := by omega
    constructor
    · cases s with
      | mk d =>
          cases d with
          | nil => rfl
          | cons c cs => simp [String.length] at hs
    · cases t with
      | mk d =>
          cases d with
          | nil => rfl
          | cons c cs => simp [String.length] at ht
  · rintro ⟨rfl, rfl⟩
    rfl

@[simp]
theorem errTruthy_valueErrMsg (e f : PyVal) :
    errTruthy (.msg (valueErrMsg e f)) = true := by
  simp [errTruthy, valueErrMsg]

@[simp]
theorem errTruthy_typeErrMsg (ts : List PyType) (v : PyVal) :
    errTruthy (.msg (typeErrMsg ts v)) = true := by
  simp [errTruthy, typeErrMsg]

@[simp]
theorem errTruthy_badValue (s : String) :
    errTruthy (.msg ("bad value: " ++ s)) = true := by
  simp [errTruthy]

@[simp]
theorem errTruthy_validateErrMsg (n : String) (x : PyVal) :
    errTruthy (.msg (validateErrMsg n x)) = true := by
  simp [errTruthy, validateErrMsg]

@[simp]
theorem errTruthy_asErrMsg (n : String) (x : PyVal) (c m : String) :
    errTruthy (.msg (asErrMsg n x c m)) = true := by
  simp [errTruthy, asErrMsg]

@[simp]
theorem errTruthy_missing :
    errTruthy (.msg "missing required key") = true := by
  simp [errTruthy]

@[simp]
theorem errTruthy_badKey (entries : List (KeySchema × Node)) :
    errTruthy (.msg (badKeyMsg entries)) = true := by
  simp [errTruthy, badKeyMsg]

@[simp]
theorem errTruthy_none_eq : errTruthy .none = false := rfl

@[simp]
theorem errTruthy_map_eq (l : List (PyVal × PyErr)) :
    errTruthy (.map l) = !l.isEmpty := rfl

@[simp]
theorem wrapErr_msg (s : String) :
    wrapErr (.msg s) = .msg ("bad value: " ++ s) := rfl

@[simp]
theorem wrapErr_map (l : List (PyVal × PyErr)) :
    wrapErr (.map l) = .map l := rfl

theorem runSchema_eq (n : Node) (x : PyVal) :
    runSchema n x =
      ((match (nodeEval n x).1 with
        | .ok r => r
        | .error m => ⟨.none, .msg m⟩), (nodeEval n x).2) := by
  simp [runSchema]

@[simp]
theorem allSteps_nil (r : SchemaResult) : allSteps [] r = (r, []) := by
  simp [allSteps]

theorem allSteps_cons (n : Node) (ns : List Node) (r : SchemaResult) :
    allSteps (n :: ns) r =
      if errTruthy (runSchema n r.data).1.errors then
        ((runSchema n r.data).1, (runSchema n r.data).2)
      else
        ((allSteps ns (runSchema n r.data).1).1,
         (runSchema n r.data).2 ++ (allSteps ns (runSchema n r.data).1).2) := by
  simp [allSteps]

@[simp]
theorem anySteps_nil (obj : PyVal) (r : SchemaResult) :
    anySteps [] obj r = (r, []) := by
  simp [anySteps]

theorem anySteps_cons (n : Node) (ns : List Node) (obj : PyVal)
    (r : SchemaResult) :
    anySteps (n :: ns) obj r =
      (let d := if !isNone r.data then r.data else obj
       if !errTruthy (runSchema n d).1.errors then
         ((runSchema n d).1, (runSchema n d).2)
       else
         ((anySteps ns obj (runSchema n d).1).1,
          (runSchema n d).2 ++ (anySteps ns obj (runSchema n d).1).2)) := by
  simp [anySteps]

@[simp]
theorem listItems_nil (elem : Node) (idx : Nat) :
    listItems elem idx [] = ([], [], []) := by
  simp [listItems]

theorem listItems_cons (elem : Node) (idx : Nat) (v : PyVal)
    (rest : List PyVal) :
    listItems elem idx (v :: rest) =
      ((if !isNone (runSchema elem v).1.data then [(runSchema elem v).1.data]
        else []) ++ (listItems elem (idx + 1) rest).1,
       (if errTruthy (runSchema elem v).1.errors then
          [(PyVal.int idx, wrapErr (runSchema elem v).1.errors)]
        else []) ++ (listItems elem (idx + 1) rest).2.1,
       (runSchema elem v).2 ++ (listItems elem (idx + 1) rest).2.2) := by
  simp [listItems]

@[simp]
theorem dictItems_nil (entries : List (KeySchema × Node)) (extra : Extra)
    (st : DState) : dictItems entries extra [] st = (st, []) := by
  simp [dictItems]

theorem dictItems_cons (entries : List (KeySchema × Node)) (extra : Extra)
    (kv : PyVal × PyVal) (rest : List (PyVal × PyVal)) (st : DState) :
    dictItems entries extra (kv :: rest) st =
      ((dictItems entries extra rest (dictHandleItem entries extra kv st).1).1,
       (dictHandleItem entries extra kv st).2 ++
         (dictItems entries extra rest
           (dictHandleItem entries extra kv st).1).2) := by
  simp [dictItems]

@[simp]
theorem dictUsables_nil (obj : PyVal) (st : DState) :
    dictUsables [] obj st = (st, []) := by
  simp [dictUsables]

theorem dictUsables_cons (ks : KeySchema) (v : Node)
    (rest : List (KeySchema × Node)) (obj : PyVal) (st : DState) :
    dictUsables ((ks, v) :: rest) obj st =
      if isUsable v then
        ((dictUsables rest obj
            (extendWithResult (keyRawTop ks) (runSchema v obj).1
              { st with seen := st.seen ++ [.ks ks] })).1,
         (runSchema v obj).2 ++
           (dictUsables rest obj
             (extendWithResult (keyRawTop ks) (runSchema v obj).1
               { st with seen := st.seen ++ [.ks ks] })).2)
      else dictUsables rest obj st := by
  simp [dictUsables]

theorem runSchema_allN (ns : List Node) (x : PyVal) :
    runSchema (.allN ns) x = allSteps ns ⟨x, .none⟩ := by
  rw [runSchema_eq]
  simp [nodeEval]

theorem runSchema_anyN (ns : List Node) (x : PyVal) :
    runSchema (.anyN ns) x = anySteps ns x ⟨x, .none⟩ := by
  rw [runSchema_eq]
  simp [nodeEval]

theorem allSteps_append_err (ms : List Node) :
    ∀ (ns : List Node) (r : SchemaResult),
      errTruthy r.errors = false →
      errTruthy (allSteps ns r).1.errors = true →
      allSteps (ns ++ ms) r = allSteps ns r := by
  intro ns
  induction ns with
  | nil =>
      intro r h0 h1
      rw [allSteps_nil] at h1
      simp at h1
      rw [h1] at h0
      cases h0
  | cons n rest ih =>
      intro r h0 h1
      rw [allSteps_cons] at h1
      rw [List.cons_append, allSteps_cons, allSteps_cons]
      by_cases hp : errTruthy (runSchema n r.data).1.errors = true
      · simp only [hp, if_true]
      · simp only [Bool.not_eq_true] at hp
        simp only [hp, Bool.false_eq_true, if_false] at h1 ⊢
        rw [ih (runSchema n r.data).1 hp h1]

/-- C4: For every `All(s1, ..., sn)` combinator and input `x`, the
sub-schemas are evaluated in the given order as a pipeline, each receiving
the previous node's output data as its input; evaluation stops at the
first node whose outcome has a non-empty error and returns that node's
outcome immediately, so no later node is ever invoked after a failure
(the appended suffix changes neither the result nor the trace of callable
invocations). -/
theorem all_pipeline_fail_fast :
    (∀ x : PyVal, runSchema (.allN []) x = (⟨x, .none⟩, [])) ∧
    (∀ (n : Node) (ns : List Node) (x : PyVal),
      (errTruthy (runSchema n x).1.errors = true →
        runSchema (.allN (n :: ns)) x = runSchema n x) ∧
      (errTruthy (runSchema n x).1.errors = false →
        runSchema (.allN (n :: ns)) x =
          ((allSteps ns (runSchema n x).1).1,
           (runSchema n x).2 ++ (allSteps ns (runSchema n x).1).2))) ∧
    (∀ (ns ms : List Node) (x : PyVal),
      errTruthy (runSchema (.allN ns) x).1.errors = true →
      runSchema (.allN (ns ++ ms)) x = runSchema (.allN ns) x) := by
  refine ⟨?_, ?_, ?_⟩
  · intro x
    rw [runSchema_allN, allSteps_nil]
  · intro n ns x
    constructor
    · intro h
      rw [runSchema_allN, allSteps_cons]
      simp only [h, if_true]
    · intro h
      rw [runSchema_allN, allSteps_cons]
      simp only [h, Bool.false_eq_true, if_false]
  · intro ns ms x h
    rw [runSchema_allN] at h ⊢
    rw [runSchema_allN]
    exact allSteps_append_err ms ns ⟨x, .none⟩ rfl h

/-- Closed witness for the `All` pipeline theorem: `All(int, str)` applied
to `'a'` fails at the `int` step, and appending the `str` step changes
nothing. -/
theorem all_pipeline_fail_fast_witness :
    errTruthy (runSchema (.typeN [.intT]) (.str "a")).1.errors = true ∧
    runSchema (.allN [.typeN [.intT], .typeN [.strT]]) (.str "a") =
      runSchema (.typeN [.intT]) (.str "a") := by
  have h : errTruthy (runSchema (.typeN [.intT]) (.str "a")).1.errors = true := by
    rw [runSchema_eq]
    simp [nodeEval, isinstAny, isinst]
  exact ⟨h, (all_pipeline_fail_fast.2.1 (.typeN [.intT]) [.typeN [.strT]]
    (.str "a")).1 h⟩

theorem nextInput_self (x : PyVal) :
    nextInput ⟨x, .none⟩ x = x := by
  unfold nextInput
  exact ite_self x

theorem anySteps_cons2 (n : Node) (ns : List Node) (obj : PyVal)
    (r : SchemaResult) :
    anySteps (n :: ns) obj r =
      if !errTruthy (runSchema n (nextInput r obj)).1.errors then
        ((runSchema n (nextInput r obj)).1, (runSchema n (nextInput r obj)).2)
      else
        ((anySteps ns obj (runSchema n (nextInput r obj)).1).1,
         (runSchema n (nextInput r obj)).2 ++
           (anySteps ns obj (runSchema n (nextInput r obj)).1).2) := by
  simp [anySteps, nextInput]

theorem anySteps_first_input (n : Node) (ns : List Node) (x : PyVal) :
    anySteps (n :: ns) x ⟨x, .none⟩ =
      (if !errTruthy (runSchema n x).1.errors then
        ((runSchema n x).1, (runSchema n x).2)
      else
        ((anySteps ns x (runSchema n x).1).1,
         (runSchema n x).2 ++ (anySteps ns x (runSchema n x).1).2)) := by
  rw [anySteps_cons2, nextInput_self]

theorem anySteps_of_none (ns : List Node) (obj : PyVal) (r : SchemaResult)
    (h : isNone r.data = true) (hne : ns ≠ []) :
    anySteps ns obj r = anySteps ns obj ⟨obj, .none⟩ := by
  cases ns with
  | nil => exact absurd rfl hne
  | cons n rest =>
      rw [anySteps_cons2, anySteps_cons2]
      have h1 : nextInput r obj = obj := by
        unfold nextInput
        rw [h]
        rfl
      have h2 : nextInput ⟨obj, .none⟩ obj = obj := nextInput_self obj
      rw [h1, h2]

theorem anySteps_all_fail_last :
    ∀ (ns : List Node) (n : Node) (obj : PyVal) (r : SchemaResult),
      errTruthy ((anySteps (ns ++ [n]) obj r).1.errors) = true →
      (anySteps (ns ++ [n]) obj r).1 =
        (runSchema n (nextInput (anySteps ns obj r).1 obj)).1 := by
  intro ns
  induction ns with
  | nil =>
      intro n obj r h
      rw [List.nil_append] at h ⊢
      rw [anySteps_cons2] at h ⊢
      rw [anySteps_nil]
      by_cases hp : errTruthy (runSchema n (nextInput r obj)).1.errors = true
      · simp only [hp, Bool.not_true, Bool.false_eq_true, if_false,
          anySteps_nil] at h ⊢
      · have hp2 : errTruthy (runSchema n (nextInput r obj)).1.errors = false := by
          revert hp
          cases errTruthy (runSchema n (nextInput r obj)).1.errors <;> simp
        simp only [hp2, Bool.not_false, if_true] at h
        exact Bool.noConfusion h
  | cons m rest ih =>
      intro n obj r h
      rw [List.cons_append] at h ⊢
      rw [anySteps_cons2] at h ⊢
      rw [anySteps_cons2]
      by_cases hp : errTruthy (runSchema m (nextInput r obj)).1.errors = true
      · simp only [hp, Bool.not_true, Bool.false_eq_true, if_false] at h ⊢
        exact ih n obj (runSchema m (nextInput r obj)).1 h
      · have hp2 : errTruthy (runSchema m (nextInput r obj)).1.errors = false := by
          revert hp
          cases errTruthy (runSchema m (nextInput r obj)).1.errors <;> simp
        simp only [hp2, Bool.not_false, if_true] at h
        exact Bool.noConfusion h

/-- C3: For every `Any(s1, ..., sn)` combinator and input `x`: the empty
combinator returns the input unchanged; the first alternative is evaluated
against the original input `x` and its outcome is returned when it reports
no error; when an attempt fails with no usable data (`None`), the next
alternative falls back to the original input `x` (so the remaining
alternatives compute the same result as `Any` of the remaining
alternatives on `x`); when an attempt fails with partial (non-`None`)
data, the next alternative receives that partial data; and when every
alternative fails, the returned outcome is exactly the last attempt's
outcome. -/
theorem any_alternatives_semantics :
    (∀ x : PyVal, runSchema (.anyN []) x = (⟨x, .none⟩, [])) ∧
    (∀ (n : Node) (ns : List Node) (x : PyVal),
      errTruthy (runSchema n x).1.errors = false →
      runSchema (.anyN (n :: ns)) x = runSchema n x) ∧
    (∀ (n : Node) (ns : List Node) (x : PyVal),
      errTruthy (runSchema n x).1.errors = true →
      isNone (runSchema n x).1.data = true → ns ≠ [] →
      (runSchema (.anyN (n :: ns)) x).1 = (runSchema (.anyN ns) x).1) ∧
    (∀ (n m : Node) (rest : List Node) (x : PyVal),
      errTruthy (runSchema n x).1.errors = true →
      isNone (runSchema n x).1.data = false →
      errTruthy (runSchema m ((runSchema n x).1.data)).1.errors = false →
      (runSchema (.anyN (n :: m :: rest)) x).1 =
        (runSchema m ((runSchema n x).1.data)).1) ∧
    (∀ (ns : List Node) (n : Node) (x : PyVal),
      errTruthy ((runSchema (.anyN (ns ++ [n])) x).1.errors) = true →
      (runSchema (.anyN (ns ++ [n])) x).1 =
        (runSchema n (nextInput (anySteps ns x ⟨x, .none⟩).1 x)).1) := by
  refine ⟨?_, ?_, ?_, ?_, ?_⟩
  · intro x
    rw [runSchema_anyN, anySteps_nil]
  · intro n ns x h
    rw [runSchema_anyN, anySteps_first_input]
    simp only [h, Bool.not_false, if_true]
  · intro n ns x h hd hne
    rw [runSchema_anyN, runSchema_anyN, anySteps_first_input]
    simp only [h, Bool.not_true, Bool.false_eq_true, if_false]
    rw [anySteps_of_none ns x (runSchema n x).1 hd hne]
  · intro n m rest x h hd hm
    rw [runSchema_anyN, anySteps_first_input]
    simp only [h, Bool.not_true, Bool.false_eq_true, if_false]
    rw [anySteps_cons2]
    have h1 : nextInput (runSchema n x).1 x = (runSchema n x).1.data := by
      unfold nextInput
      rw [hd]
      rfl
    rw [h1]
    simp only [hm, Bool.not_false, if_true]
  · intro ns n x h
    rw [runSchema_anyN] at h ⊢
    exact anySteps_all_fail_last ns n x ⟨x, .none⟩ h

/-- Closed witness for the `Any` semantics theorem: with input `7`, the
first of the two predicates of the spec example succeeds, and its outcome
is the result. -/
theorem any_alternatives_semantics_witness :
    errTruthy (runSchema (.validate ⟨"f", fun v => .ok (.bool true)⟩)
      (.int 7)).1.errors = false ∧
    runSchema (.anyN [.validate ⟨"f", fun v => .ok (.bool true)⟩,
      .validate ⟨"g", fun v => .ok (.bool true)⟩]) (.int 7) =
      runSchema (.validate ⟨"f", fun v => .ok (.bool true)⟩) (.int 7) := by
  have h : errTruthy (runSchema (.validate ⟨"f", fun v => .ok (.bool true)⟩)
      (.int 7)).1.errors = false := by
    rw [runSchema_eq]
    simp [nodeEval, pyTruthy, isNone]
  exact ⟨h, any_alternatives_semantics.2.1 _ [.validate ⟨"g",
    fun v => .ok (.bool true)⟩] (.int 7) h⟩

theorem runSchema_listN_list (elem : Node) (xs : List PyVal) :
    runSchema (.listN elem) (.list xs) =
      (⟨if (listItems elem 0 xs).1.isEmpty &&
          !(listItems elem 0 xs).2.1.isEmpty then .none
        else .list (listItems elem 0 xs).1,
        .map (listItems elem 0 xs).2.1⟩, (listItems elem 0 xs).2.2) := by
  rw [runSchema_eq]
  simp [nodeEval]

theorem listItems_fst (elem : Node) :
    ∀ (xs : List PyVal) (idx : Nat),
      (listItems elem idx xs).1 = listLoadedData elem xs := by
  intro xs
  induction xs with
  | nil => intro idx; simp [listLoadedData]
  | cons v rest ih =>
      intro idx
      rw [listItems_cons]
      simp only [listLoadedData, List.filterMap_cons]
      by_cases h : isNone (runSchema elem v).1.data = true
      · simp only [h, Bool.not_true, Bool.false_eq_true, if_false,
          List.nil_append]
        rw [ih (idx + 1)]
        rfl
      · have h2 : isNone (runSchema elem v).1.data = false := by
          revert h
          cases isNone (runSchema elem v).1.data <;> simp
        simp only [h2, Bool.not_false, if_true, List.cons_append,
          List.nil_append]
        rw [ih (idx + 1)]
        rfl

theorem listItems_snd (elem : Node) :
    ∀ (xs : List PyVal) (idx : Nat),
      (listItems elem idx xs).2.1 = listIndexedErrors elem idx xs := by
  intro xs
  induction xs with
  | nil => intro idx; simp [listIndexedErrors]
  | cons v rest ih =>
      intro idx
      rw [listItems_cons]
      simp only [listIndexedErrors]
      rw [ih (idx + 1)]

theorem pyEq_int_int (a b : Int) : pyEq (.int a) (.int b) = (a == b) := by
  simp [pyEq]

theorem listIndexedErrors_find_lt (elem : Node) :
    ∀ (xs : List PyVal) (j : Nat) (k : Int), k < (j : Int) →
      assocFind (listIndexedErrors elem j xs) (.int k) = Option.none := by
  intro xs
  induction xs with
  | nil => intro j k h; simp [listIndexedErrors, assocFind]
  | cons v rest ih =>
      intro j k h
      simp only [listIndexedErrors]
      by_cases he : errTruthy (runSchema elem v).1.errors = true
      · simp only [he, if_true, List.cons_append, List.nil_append, assocFind]
        have hne : pyEq (.int (j : Int)) (.int k) = false := by
          rw [pyEq_int_int, beq_eq_false_iff_ne]
          omega
        rw [hne]
        simp only [Bool.false_eq_true, if_false]
        exact ih (j + 1) k (by omega)
      · have he2 : errTruthy (runSchema elem v).1.errors = false := by
          revert he
          cases errTruthy (runSchema elem v).1.errors <;> simp
        simp only [he2, Bool.false_eq_true, if_false, List.nil_append]
        exact ih (j + 1) k (by omega)

theorem listIndexedErrors_find (elem : Node) :
    ∀ (xs : List PyVal) (idx i : Nat) (h : i < xs.length),
      assocFind (listIndexedErrors elem idx xs) (.int ((idx + i : Nat) : Int)) =
        (if errTruthy (runSchema elem (xs.get ⟨i, h⟩)).1.errors then
          some (wrapErr (runSchema elem (xs.get ⟨i, h⟩)).1.errors)
        else Option.none) := by
  intro xs
  induction xs with
  | nil => intro idx i h; cases h
  | cons v rest ih =>
      intro idx i h
      cases i with
      | zero =>
          simp only [listIndexedErrors, List.get]
          by_cases he : errTruthy (runSchema elem v).1.errors = true
          · simp only [he, if_true, List.cons_append, List.nil_append,
              assocFind]
            have heq : pyEq (.int (idx : Int))
                (.int ((idx + 0 : Nat) : Int)) = true := by
              rw [pyEq_int_int, beq_iff_eq]
              omega
            rw [heq]
            simp
          · have he2 : errTruthy (runSchema elem v).1.errors = false := by
              revert he
              cases errTruthy (runSchema elem v).1.errors <;> simp
            simp only [he2, Bool.false_eq_true, if_false, List.nil_append]
            exact listIndexedErrors_find_lt elem rest (idx + 1)
              ((idx + 0 : Nat) : Int) (by omega)
      | succ j =>
          simp only [listIndexedErrors, List.get]
          have hlt : j < rest.length := by
            simp at h
            omega
          have hkey : idx + (j + 1) = (idx + 1) + j := by omega
          by_cases he : errTruthy (runSchema elem v).1.errors = true
          · simp only [he, if_true, List.cons_append, List.nil_append,
              assocFind]
            have hne : pyEq (.int (idx : Int))
                (.int ((idx + (j + 1) : Nat) : Int)) = false := by
              rw [pyEq_int_int, beq_eq_false_iff_ne]
              omega
            rw [hne]
            simp only [Bool.false_eq_true, if_false]
            rw [hkey]
            exact ih (idx + 1) j hlt
          · have he2 : errTruthy (runSchema elem v).1.errors = false := by
              revert he
              cases errTruthy (runSchema elem v).1.errors <;> simp
            simp only [he2, Bool.false_eq_true, if_false, List.nil_append]
            rw [hkey]
            exact ih (idx + 1) j hlt

/-- C5: Applied to a list `[v1..vn]`, a sequence schema produces: output
data containing, in input order, exactly the element results' data values
that are not `None` (elements loading to `None` are dropped), set to
absent (`None`) when that list is empty while at least one error occurred;
and an error map with an entry for exactly every index whose element
evaluation reported truthy errors, string sub-errors wrapped with the
`"bad value: "` message and dict sub-errors stored unwrapped. -/
theorem list_schema_outcome :
    ∀ (elem : Node) (xs : List PyVal),
      ((runSchema (.listN elem) (.list xs)).1 =
        ⟨if (listLoadedData elem xs).isEmpty &&
            !(listIndexedErrors elem 0 xs).isEmpty then .none
          else .list (listLoadedData elem xs),
          .map (listIndexedErrors elem 0 xs)⟩) ∧
      (∀ (i : Nat) (h : i < xs.length),
        assocFind (listIndexedErrors elem 0 xs) (.int i) =
          (if errTruthy (runSchema elem (xs.get ⟨i, h⟩)).1.errors then
            some (wrapErr (runSchema elem (xs.get ⟨i, h⟩)).1.errors)
          else Option.none)) := by
  intro elem xs
  constructor
  · rw [runSchema_listN_list]
    rw [listItems_fst elem xs 0, listItems_snd elem xs 0]
  · intro i h
    have := listIndexedErrors_find elem xs 0 i h
    simpa using this

theorem assocFind_append_left {α : Type} (l m : List (PyVal × α)) (k : PyVal)
    (h : (assocFind l k).isSome) :
    assocFind (l ++ m) k = assocFind l k := by
  induction l with
  | nil => simp [assocFind] at h
  | cons p rest ih =>
      obtain ⟨k0, v0⟩ := p
      simp only [assocFind, List.cons_append] at h ⊢
      by_cases hp : pyEq k0 k = true
      · simp [hp]
      · simp only [hp, if_false] at h ⊢
        simp only [Bool.false_eq_true] at *
        rw [if_neg (by simp [hp]), if_neg (by simp [hp])] at *
        exact ih h

theorem assocFind_setDefault {α : Type} (l : List (PyVal × α))
    (dk : PyVal) (dv : α) (k : PyVal) (h : (assocFind l k).isSome) :
    assocFind (assocSetDefault l dk dv) k = assocFind l k := by
  unfold assocSetDefault
  cases assocFind l dk with
  | none => exact assocFind_append_left l [(dk, dv)] k h
  | some _ => rfl

theorem assocFind_update_self {α : Type} (l : List (PyVal × α)) (k : PyVal)
    (e : α) (hk : pyEq k k = true) (hfree : keysFreeFor k l) :
    assocFind (assocUpdate l k e) k = some e := by
  induction l with
  | nil => simp [assocUpdate, assocFind, hk]
  | cons p rest ih =>
      obtain ⟨k0, v0⟩ := p
      have hp := hfree (k0, v0) (List.mem_cons_self _ _)
      simp only at hp
      by_cases h0 : pyEq k0 k = true
      · have hk0 : k0 = k := by
          cases hp with
          | inl h => exact h
          | inr h => rw [h] at h0; cases h0
        subst hk0
        simp [assocUpdate, h0, assocFind]
      · have h0f : pyEq k0 k = false := by
          revert h0
          cases pyEq k0 k <;> simp
        simp only [assocUpdate, h0f, Bool.false_eq_true, if_false, assocFind]
        exact ih (fun p hp2 => hfree p (List.mem_cons_of_mem _ hp2))

theorem assocFind_update_other {α : Type} (l : List (PyVal × α))
    (x : PyVal) (e : α) (k : PyVal) (hx1 : pyEq k x = false)
    (hx2 : pyEq x k = false) (hfree : keysFreeFor k l) :
    assocFind (assocUpdate l x e) k = assocFind l k := by
  induction l with
  | nil => simp [assocUpdate, assocFind, hx2]
  | cons p rest ih =>
      obtain ⟨k0, v0⟩ := p
      have hp := hfree (k0, v0) (List.mem_cons_self _ _)
      simp only at hp
      by_cases h0 : pyEq k0 x = true
      · have hk0 : pyEq k0 k = false := by
          cases hp with
          | inl h =>
              subst h
              rw [h0] at hx1
              cases hx1
          | inr h => exact h
        simp only [assocUpdate, h0, if_true, assocFind]
        rw [if_neg (by simp [hk0]), if_neg (by simp [hk0])]
      · have h0f : pyEq k0 x = false := by
          revert h0
          cases pyEq k0 x <;> simp
        simp only [assocUpdate, h0f, Bool.false_eq_true, if_false, assocFind]
        by_cases hk0 : pyEq k0 k = true
        · simp [hk0]
        · rw [if_neg (by simp [hk0]), if_neg (by simp [hk0])]
          exact ih (fun p hp2 => hfree p (List.mem_cons_of_mem _ hp2))

theorem keysFreeFor_update {α : Type} (l : List (PyVal × α)) (x : PyVal)
    (e : α) (k : PyVal) (hx : x = k ∨ pyEq x k = false)
    (hfree : keysFreeFor k l) : keysFreeFor k (assocUpdate l x e) := by
  induction l with
  | nil =>
      intro p hp
      simp only [assocUpdate, List.mem_singleton] at hp
      subst hp
      exact hx
  | cons q rest ih =>
      obtain ⟨k0, v0⟩ := q
      intro p hp
      simp only [assocUpdate] at hp
      by_cases h0 : pyEq k0 x = true
      · simp only [h0, if_true] at hp
        cases hp with
        | head => exact hfree (k0, v0) (List.mem_cons_self _ _)
        | tail _ hmem =>
            exact hfree p (List.mem_cons_of_mem _ hmem)
      · simp only [h0, if_false] at hp
        rw [if_neg (by simp [h0])] at hp
        cases hp with
        | head => exact hfree (k0, v0) (List.mem_cons_self _ _)
        | tail _ hmem =>
            exact ih (fun q hq => hfree q (List.mem_cons_of_mem _ hq)) p hmem

theorem keysFreeFor_append {α : Type} (l m : List (PyVal × α)) (k : PyVal)
    (hl : keysFreeFor k l) (hm : keysFreeFor k m) :
    keysFreeFor k (l ++ m) := by
  intro p hp
  rcases List.mem_append.mp hp with h | h
  · exact hl p h
  · exact hm p h

theorem seenHasVal_false_of_free (k : PyVal) (seen : List SeenItem)
    (h : seenFreeFor k seen) : seenHasVal seen k = false := by
  rw [seenHasVal, List.any_eq_false]
  intro it hit
  cases it with
  | v w =>
      have h2 : pyEq k w = false ∧ pyEq w k = false := h (SeenItem.v w) hit
      simp [h2.1]
  | ks e =>
      have h2 : pyEq (kindKeyVal e) k = false := h (SeenItem.ks e) hit
      simp [keyWrapperEqVal, h2]

theorem seenFreeFor_append (k : PyVal) (s t : List SeenItem)
    (hs : seenFreeFor k s) (ht : seenFreeFor k t) :
    seenFreeFor k (s ++ t) := by
  intro it hit
  rcases List.mem_append.mp hit with h | h
  · exact hs it h
  · exact ht it h

theorem dictLookup_none_all (entries : List (KeySchema × Node)) (k : PyVal)
    (h : dictLookup entries k = Option.none) :
    ∀ e ∈ entries, keyWrapperEqVal e.1 k = false := by
  induction entries with
  | nil => intro e he; cases he
  | cons p rest ih =>
      intro e he
      simp only [dictLookup] at h
      by_cases hp : keyWrapperEqVal p.1 k = true
      · rw [if_pos hp] at h
        cases h
      · have hpf : keyWrapperEqVal p.1 k = false := by
          revert hp
          cases keyWrapperEqVal p.1 k <;> simp
        rw [if_neg (by simp [hpf])] at h
        cases he with
        | head => exact hpf
        | tail _ hmem => exact ih h e hmem

theorem dictProbeAux_marks (k : PyVal) :
    ∀ (es : List (KeySchema × Node)) (acc : List Node)
      (aks : List KeySchema) (x : KeySchema),
      x ∈ (dictProbeAux k es acc aks).2 →
      x ∈ aks ∨ ∃ e ∈ es, e.1 = x ∧ isUsable e.2 = false ∧
        keyAccepts x k = true := by
  intro es
  induction es with
  | nil =>
      intro acc aks x hx
      simp only [dictProbeAux] at hx
      exact Or.inl hx
  | cons p rest ih =>
      intro acc aks x hx
      obtain ⟨ks, v⟩ := p
      simp only [dictProbeAux] at hx
      by_cases hu : isUsable v = true
      · rw [if_pos hu] at hx
        rcases ih acc aks x hx with h | ⟨e, he, h1, h2, h3⟩
        · exact Or.inl h
        · exact Or.inr ⟨e, List.mem_cons_of_mem _ he, h1, h2, h3⟩
      · have huf : isUsable v = false := by
          revert hu
          cases isUsable v <;> simp
        rw [if_neg (by simp [huf])] at hx
        by_cases ha : keyAccepts ks k = true
        · rw [if_pos ha] at hx
          rcases ih _ (aks ++ [ks]) x hx with h | ⟨e, he, h1, h2, h3⟩
          · rcases List.mem_append.mp h with h | h
            · exact Or.inl h
            · simp only [List.mem_singleton] at h
              exact Or.inr ⟨(ks, v), List.mem_cons_self _ _, h.symm, huf,
                by rw [h]; exact ha⟩
          · exact Or.inr ⟨e, List.mem_cons_of_mem _ he, h1, h2, h3⟩
        · rw [if_neg ha] at hx
          rcases ih acc aks x hx with h | ⟨e, he, h1, h2, h3⟩
          · exact Or.inl h
          · exact Or.inr ⟨e, List.mem_cons_of_mem _ he, h1, h2, h3⟩

theorem dictProbe_marks (entries : List (KeySchema × Node)) (k : PyVal)
    (x : KeySchema) (hx : x ∈ (dictProbe entries k).2) :
    ∃ e ∈ entries, e.1 = x ∧ isUsable e.2 = false ∧
      keyAccepts x k = true := by
  rcases dictProbeAux_marks k entries [] [] x hx with h | h
  · cases h
  · exact h

theorem pyEq_optObj_left (a b : PyVal) : pyEq (.optObj a) b = pyEq a b := by
  rw [pyEq]

theorem extendWithResult_spec (k : PyVal) (r : SchemaResult) (st : DState) :
    (extendWithResult k r st).data =
      (if !isNone r.data || !errTruthy r.errors then
        assocUpdate st.data k r.data
      else st.data) ∧
    (extendWithResult k r st).errors =
      (if errTruthy r.errors then assocUpdate st.errors k (wrapErr r.errors)
       else st.errors) ∧
    (extendWithResult k r st).seen = st.seen ++ [.v k] := by
  unfold extendWithResult
  by_cases h1 : errTruthy r.errors = true <;>
    by_cases h2 : isNone r.data = true <;>
    simp_all

theorem dictHandleItem_cases (entries : List (KeySchema × Node))
    (extra : Extra) (kv : PyVal × PyVal) (st : DState) :
    (dictHandleItem entries extra kv st = (st, [])) ∨
    (dictHandleItem entries extra kv st =
      ({ st with data := assocUpdate st.data kv.1 kv.2 }, [])) ∨
    (dictHandleItem entries extra kv st =
      ({ st with errors :=
          (assocUpdate st.errors kv.1 (.msg (badKeyMsg entries))) }, [])) ∨
    (∃ (r : SchemaResult) (marks : List SeenItem) (tr : Trace),
      dictHandleItem entries extra kv st =
        (extendWithResult kv.1 r { st with seen := st.seen ++ marks }, tr) ∧
      (∀ m ∈ marks, ∃ e ∈ entries, m = SeenItem.ks e.1 ∧
        isUsable e.2 = false ∧ keyAccepts e.1 kv.1 = true ∧
        dictLookup entries kv.1 = Option.none)) := by
  unfold dictHandleItem
  by_cases hs : seenHasVal st.seen kv.1 = true
  · rw [if_pos hs]
    exact Or.inl rfl
  · rw [if_neg hs]
    by_cases hL : (dictLookup entries kv.1).isSome = true
    · rw [dif_pos hL]
      refine Or.inr (Or.inr (Or.inr
        ⟨(runSchema ((dictLookup entries kv.1).get hL) kv.2).1, [],
         (runSchema ((dictLookup entries kv.1).get hL) kv.2).2, ?_, ?_⟩))
      · simp
      · intro m hm
        cases hm
    · rw [dif_neg hL]
      have hnone : dictLookup entries kv.1 = Option.none := by
        revert hL
        cases dictLookup entries kv.1 <;> simp
      by_cases hE : ((dictProbe entries kv.1).1.isEmpty : Prop)
      · rw [dif_pos hE]
        cases extra with
        | allow => exact Or.inr (Or.inl rfl)
        | deny => exact Or.inr (Or.inr (Or.inl rfl))
        | ignore => exact Or.inl rfl
      · rw [dif_neg hE]
        have hmarks : ∀ m ∈ (dictProbe entries kv.1).2.map SeenItem.ks,
            ∃ e ∈ entries, m = SeenItem.ks e.1 ∧ isUsable e.2 = false ∧
              keyAccepts e.1 kv.1 = true ∧
              dictLookup entries kv.1 = Option.none := by
          intro m hm
          rcases List.mem_map.mp hm with ⟨x, hx, rfl⟩
          rcases dictProbe_marks entries kv.1 x hx with ⟨e, he, h1, h2, h3⟩
          exact ⟨e, he, by rw [h1], h2, by rw [h1]; exact h3, hnone⟩
        by_cases h1 : (dictProbe entries kv.1).1.length = 1
        · rw [if_pos h1]
          exact Or.inr (Or.inr (Or.inr ⟨_, _, _, rfl, hmarks⟩))
        · rw [if_neg h1]
          exact Or.inr (Or.inr (Or.inr ⟨_, _, _, rfl, hmarks⟩))

theorem pyEq_pytype_plain (t : PyType) (k : PyVal) (h : plainKey k = true) :
    pyEq (.pytype t) k = false ∧ pyEq k (.pytype t) = false := by
  cases k <;> simp_all [pyEq, plainKey]

theorem pyEq_typeTuple_plain (ts : List PyType) (k : PyVal)
    (h : plainKey k = true) :
    pyEq (.typeTuple ts) k = false ∧ pyEq k (.typeTuple ts) = false := by
  cases k <;> simp_all [pyEq, plainKey]

theorem dictHandleItem_preserve (entries : List (KeySchema × Node))
    (extra : Extra) (kv : PyVal × PyVal) (st : DState) (k : PyVal)
    (hd : keysFreeFor k st.data) (he : keysFreeFor k st.errors)
    (hseen : seenFreeFor k st.seen)
    (hx1 : pyEq k kv.1 = false) (hx2 : pyEq kv.1 k = false)
    (hplain : plainKey k = true)
    (hsym : ∀ e ∈ entries, ∀ p, e.1.kind = .val p →
      pyEq kv.1 p = pyEq p kv.1) :
    keysFreeFor k (dictHandleItem entries extra kv st).1.data ∧
    keysFreeFor k (dictHandleItem entries extra kv st).1.errors ∧
    seenFreeFor k (dictHandleItem entries extra kv st).1.seen ∧
    assocFind (dictHandleItem entries extra kv st).1.data k =
      assocFind st.data k ∧
    assocFind (dictHandleItem entries extra kv st).1.errors k =
      assocFind st.errors k := by
  rcases dictHandleItem_cases entries extra kv st with hc | hc | hc |
    ⟨r, marks, tr, hc, hmarks⟩
  · rw [hc]
    exact ⟨hd, he, hseen, rfl, rfl⟩
  · rw [hc]
    refine ⟨keysFreeFor_update _ _ _ _ (Or.inr hx2) hd, he, hseen,
      assocFind_update_other _ _ _ _ hx1 hx2 hd, rfl⟩
  · rw [hc]
    refine ⟨hd, keysFreeFor_update _ _ _ _ (Or.inr hx2) he, hseen, rfl,
      assocFind_update_other _ _ _ _ hx1 hx2 he⟩
  · rw [hc]
    have hms : seenFreeFor k (st.seen ++ marks) := by
      refine seenFreeFor_append k _ _ hseen ?_
      intro m hm
      rcases hmarks m hm with ⟨e, he2, rfl, hu, hacc, hnone⟩
      have hW := dictLookup_none_all entries kv.1 hnone e he2
      cases hk : e.1.kind with
      | val p =>
          simp only [keyWrapperEqVal, kindKeyVal, hk] at hW ⊢
          have h1 : pyEq kv.1 p = true := by
            simpa [keyAccepts, hk] using hacc
          rw [hsym e he2 p hk] at h1
          rw [h1] at hW
          cases hW
      | typ ts raw =>
          simp only [kindKeyVal, hk]
          exact (pyEq_typeTuple_plain ts k hplain).1
    obtain ⟨hdata, herr, hsn⟩ := extendWithResult_spec kv.1 r
      { st with seen := st.seen ++ marks }
    refine ⟨?_, ?_, ?_, ?_, ?_⟩
    · rw [hdata]
      by_cases hcond : (!isNone r.data || !errTruthy r.errors) = true
      · rw [if_pos hcond]
        exact keysFreeFor_update _ _ _ _ (Or.inr hx2) hd
      · rw [if_neg hcond]
        exact hd
    · rw [herr]
      by_cases hcond : errTruthy r.errors = true
      · rw [if_pos hcond]
        exact keysFreeFor_update _ _ _ _ (Or.inr hx2) he
      · rw [if_neg hcond]
        exact he
    · rw [hsn]
      refine seenFreeFor_append k _ _ hms ?_
      intro it hit
      simp only [List.mem_singleton] at hit
      subst hit
      exact ⟨hx1, hx2⟩
    · rw [hdata]
      by_cases hcond : (!isNone r.data || !errTruthy r.errors) = true
      · rw [if_pos hcond]
        exact assocFind_update_other _ _ _ _ hx1 hx2 hd
      · rw [if_neg hcond]
    · rw [herr]
      by_cases hcond : errTruthy r.errors = true
      · rw [if_pos hcond]
        exact assocFind_update_other _ _ _ _ hx1 hx2 he
      · rw [if_neg hcond]

theorem dictItems_preserve (entries : List (KeySchema × Node))
    (extra : Extra) (k : PyVal) (hplain : plainKey k = true) :
    ∀ (items : List (PyVal × PyVal)) (st : DState),
      keysFreeFor k st.data → keysFreeFor k st.errors →
      seenFreeFor k st.seen →
      (∀ kv ∈ items, pyEq k kv.1 = false ∧ pyEq kv.1 k = false ∧
        (∀ e ∈ entries, ∀ p, e.1.kind = .val p →
          pyEq kv.1 p = pyEq p kv.1)) →
      keysFreeFor k (dictItems entries extra items st).1.data ∧
      keysFreeFor k (dictItems entries extra items st).1.errors ∧
      seenFreeFor k (dictItems entries extra items st).1.seen ∧
      assocFind (dictItems entries extra items st).1.data k =
        assocFind st.data k ∧
      assocFind (dictItems entries extra items st).1.errors k =
        assocFind st.errors k := by
  intro items
  induction items with
  | nil =>
      intro st hd he hs hg
      rw [dictItems_nil]
      exact ⟨hd, he, hs, rfl, rfl⟩
  | cons kv rest ih =>
      intro st hd he hs hg
      have hg0 := hg kv (List.mem_cons_self _ _)
      have hstep := dictHandleItem_preserve entries extra kv st k hd he hs
        hg0.1 hg0.2.1 hplain hg0.2.2
      rw [dictItems_cons]
      have hrec := ih (dictHandleItem entries extra kv st).1 hstep.1
        hstep.2.1 hstep.2.2.1
        (fun kv2 h2 => hg kv2 (List.mem_cons_of_mem _ h2))
      refine ⟨hrec.1, hrec.2.1, hrec.2.2.1, ?_, ?_⟩
      · rw [hrec.2.2.2.1, hstep.2.2.2.1]
      · rw [hrec.2.2.2.2, hstep.2.2.2.2]

theorem dictUsables_preserve (k : PyVal) (hplain : plainKey k = true) :
    ∀ (es : List (KeySchema × Node)) (obj : PyVal) (st : DState),
      keysFreeFor k st.data → keysFreeFor k st.errors →
      seenFreeFor k st.seen →
      (∀ e ∈ es, isUsable e.2 = true →
        pyEq k (keyRawTop e.1) = false ∧ pyEq (keyRawTop e.1) k = false) →
      keysFreeFor k (dictUsables es obj st).1.data ∧
      keysFreeFor k (dictUsables es obj st).1.errors ∧
      seenFreeFor k (dictUsables es obj st).1.seen ∧
      assocFind (dictUsables es obj st).1.data k = assocFind st.data k ∧
      assocFind (dictUsables es obj st).1.errors k =
        assocFind st.errors k := by
  intro es
  induction es with
  | nil =>
      intro obj st hd he hs hg
      rw [dictUsables_nil]
      exact ⟨hd, he, hs, rfl, rfl⟩
  | cons e rest ih =>
      intro obj st hd he hs hg
      obtain ⟨ks0, v0⟩ := e
      rw [dictUsables_cons]
      by_cases hu : isUsable v0 = true
      · rw [if_pos hu]
        have hgr := hg (ks0, v0) (List.mem_cons_self _ _) hu
        have hrt1 : pyEq k (keyRawTop ks0) = false := hgr.1
        have hrt2 : pyEq (keyRawTop ks0) k = false := hgr.2
        have hkk : pyEq (kindKeyVal ks0) k = false := by
          cases hk : ks0.kind with
          | val p =>
              have : pyEq (keyRawTop ks0) k = pyEq p k := by
                unfold keyRawTop keyRawUnder
                rw [hk]
                by_cases ho : ks0.opt
                · rw [if_pos ho, pyEq_optObj_left]
                · rw [if_neg ho]
              simp only [kindKeyVal, hk]
              rw [← this]
              exact hrt2
          | typ ts raw =>
              simp only [kindKeyVal, hk]
              exact (pyEq_typeTuple_plain ts k hplain).1
        have hseen2 : seenFreeFor k (st.seen ++ [SeenItem.ks ks0]) := by
          refine seenFreeFor_append k _ _ hs ?_
          intro it hit
          simp only [List.mem_singleton] at hit
          subst hit
          exact hkk
        obtain ⟨hdata, herr, hsn⟩ := extendWithResult_spec (keyRawTop ks0)
          (runSchema v0 obj).1 { st with seen := st.seen ++ [.ks ks0] }
        set st2 := extendWithResult (keyRawTop ks0) (runSchema v0 obj).1
          { st with seen := st.seen ++ [.ks ks0] }
        have h2d : keysFreeFor k st2.data ∧
            assocFind st2.data k = assocFind st.data k := by
          rw [hdata]
          by_cases hcond : (!isNone (runSchema v0 obj).1.data ||
              !errTruthy (runSchema v0 obj).1.errors) = true
          · rw [if_pos hcond]
            exact ⟨keysFreeFor_update _ _ _ _ (Or.inr hrt2) hd,
              assocFind_update_other _ _ _ _ hrt1 hrt2 hd⟩
          · rw [if_neg hcond]
            exact ⟨hd, rfl⟩
        have h2e : keysFreeFor k st2.errors ∧
            assocFind st2.errors k = assocFind st.errors k := by
          rw [herr]
          by_cases hcond : errTruthy (runSchema v0 obj).1.errors = true
          · rw [if_pos hcond]
            exact ⟨keysFreeFor_update _ _ _ _ (Or.inr hrt2) he,
              assocFind_update_other _ _ _ _ hrt1 hrt2 he⟩
          · rw [if_neg hcond]
            exact ⟨he, rfl⟩
        have h2s : seenFreeFor k st2.seen := by
          rw [hsn]
          refine seenFreeFor_append k _ _ hseen2 ?_
          intro it hit
          simp only [List.mem_singleton] at hit
          subst hit
          exact ⟨hrt1, hrt2⟩
        have hrec := ih obj st2 h2d.1 h2e.1 h2s
          (fun e2 h2 => hg e2 (List.mem_cons_of_mem _ h2))
        refine ⟨hrec.1, hrec.2.1, hrec.2.2.1, ?_, ?_⟩
        · rw [hrec.2.2.2.1, h2d.2]
        · rw [hrec.2.2.2.2, h2e.2]
      · rw [if_neg hu]
        exact ih obj st hd he hs
          (fun e2 h2 => hg e2 (List.mem_cons_of_mem _ h2))

/-- Closed witness for the sequence-schema theorem: `[str]` applied to
`[1, 'a']` keeps `'a'` and reports index `0`. -/
theorem list_schema_outcome_witness :
    (0 : Nat) < ([PyVal.int 1, PyVal.str "a"] : List PyVal).length ∧
    assocFind (listIndexedErrors (.allN [.typeN [.strT]]) 0
        [PyVal.int 1, PyVal.str "a"]) (.int 0) =
      (if errTruthy (runSchema (.allN [.typeN [.strT]])
          (([PyVal.int 1, PyVal.str "a"] : List PyVal).get
            ⟨0, by decide⟩)).1.errors then
        some (wrapErr (runSchema (.allN [.typeN [.strT]])
          (([PyVal.int 1, PyVal.str "a"] : List PyVal).get
            ⟨0, by decide⟩)).1.errors)
      else Option.none) :=
  ⟨by decide, (list_schema_outcome (.allN [.typeN [.strT]])
    [PyVal.int 1, PyVal.str "a"]).2 0 (by decide)⟩

theorem runSchema_dictN (entries : List (KeySchema × Node)) (extra : Extra)
    (defaults : List (PyVal × PyVal)) (items : List (PyVal × PyVal)) :
    (runSchema (.dictN entries extra defaults) (.dict items)).1 =
      ⟨if (dictFinalState entries extra defaults items).data.isEmpty &&
          (errTruthy (.map (dictFinalState entries extra defaults
              items).errors) ||
            !pyEq (.dict (dictFinalState entries extra defaults items).data)
              (.dict items)) then .none
        else .dict (dictFinalState entries extra defaults items).data,
        .map (dictFinalState entries extra defaults items).errors⟩ := by
  rw [runSchema_eq]
  simp [nodeEval, dictFinalState]

theorem assocFind_ne_nil {α : Type} (l : List (PyVal × α)) (k : PyVal)
    (h : (assocFind l k).isSome) : l.isEmpty = false := by
  cases l with
  | nil => simp [assocFind] at h
  | cons p rest => rfl

theorem listLoadedData_append (elem : Node) (l m : List PyVal) :
    listLoadedData elem (l ++ m) =
      listLoadedData elem l ++ listLoadedData elem m := by
  simp [listLoadedData, List.filterMap_append]

theorem dictItems_fst_append (entries : List (KeySchema × Node))
    (extra : Extra) (m : List (PyVal × PyVal)) :
    ∀ (l : List (PyVal × PyVal)) (st : DState),
      (dictItems entries extra (l ++ m) st).1 =
        (dictItems entries extra m (dictItems entries extra l st).1).1 := by
  intro l
  induction l with
  | nil =>
      intro st
      simp [dictItems_nil]
  | cons kv rest ih =>
      intro st
      simp only [List.cons_append, dictItems_cons]
      exact ih _

theorem dictHandleItem_seen_ext (entries : List (KeySchema × Node))
    (extra : Extra) (kv : PyVal × PyVal) (st : DState) :
    ∃ ext, (dictHandleItem entries extra kv st).1.seen = st.seen ++ ext := by
  rcases dictHandleItem_cases entries extra kv st with hc | hc | hc |
    ⟨r, marks, tr, hc, _⟩
  · rw [hc]
    exact ⟨[], (List.append_nil _).symm⟩
  · rw [hc]
    exact ⟨[], (List.append_nil _).symm⟩
  · rw [hc]
    exact ⟨[], (List.append_nil _).symm⟩
  · rw [hc]
    have hs := (extendWithResult_spec kv.1 r
      { st with seen := st.seen ++ marks }).2.2
    exact ⟨marks ++ [.v kv.1], by rw [hs]; simp⟩

theorem dictItems_seen_ext (entries : List (KeySchema × Node))
    (extra : Extra) :
    ∀ (items : List (PyVal × PyVal)) (st : DState),
      ∃ ext, (dictItems entries extra items st).1.seen = st.seen ++ ext := by
  intro items
  induction items with
  | nil =>
      intro st
      rw [dictItems_nil]
      exact ⟨[], (List.append_nil _).symm⟩
  | cons kv rest ih =>
      intro st
      simp only [dictItems_cons]
      obtain ⟨e1, h1⟩ := dictHandleItem_seen_ext entries extra kv st
      obtain ⟨e2, h2⟩ := ih (dictHandleItem entries extra kv st).1
      exact ⟨e1 ++ e2, by rw [h2, h1, List.append_assoc]⟩

theorem applyMissing_cons (e : KeySchema × Node)
    (rest : List (KeySchema × Node)) (st : DState) :
    applyMissing (e :: rest) st =
      applyMissing rest
        (if !e.1.opt && !seenHasKS st.seen e.1 then
          { st with errors := (assocUpdate st.errors (keyRawUnder e.1)
              (.msg "missing required key")) }
         else st) := rfl

theorem applyMissing_data_seen :
    ∀ (entries : List (KeySchema × Node)) (st : DState),
      (applyMissing entries st).data = st.data ∧
      (applyMissing entries st).seen = st.seen := by
  intro entries
  induction entries with
  | nil => intro st; exact ⟨rfl, rfl⟩
  | cons e rest ih =>
      intro st
      rw [applyMissing_cons]
      by_cases hc : (!e.1.opt && !seenHasKS st.seen e.1) = true
      · rw [if_pos hc]
        exact ih _
      · rw [if_neg hc]
        exact ih st

theorem applyMissing_errors (k : PyVal) (hkk : pyEq k k = true) :
    ∀ (entries : List (KeySchema × Node)) (st : DState),
      keysFreeFor k st.errors → SeenItem.v k ∈ st.seen →
      (∀ e ∈ entries,
        (∀ p, e.1.kind = .val p → pyEq k p = pyEq p k) ∧
        (∀ ts raw, e.1.kind = .typ ts raw →
          pyEq k raw = false ∧ pyEq raw k = false)) →
      assocFind (applyMissing entries st).errors k =
        assocFind st.errors k ∧
      keysFreeFor k (applyMissing entries st).errors := by
  intro entries
  induction entries with
  | nil => intro st hf _ _; exact ⟨rfl, hf⟩
  | cons e rest ih =>
      intro st hf hmem hg
      rw [applyMissing_cons]
      by_cases hc : (!e.1.opt && !seenHasKS st.seen e.1) = true
      · rw [if_pos hc]
        have hks : seenHasKS st.seen e.1 = false := by
          simp only [Bool.and_eq_true, Bool.not_eq_true'] at hc
          exact hc.2
        have hraw : pyEq k (keyRawUnder e.1) = false ∧
            pyEq (keyRawUnder e.1) k = false := by
          cases hk : e.1.kind with
          | val p =>
              have hpk : pyEq p k = false := by
                rw [seenHasKS, List.any_eq_false] at hks
                have h3 := hks (SeenItem.v k) hmem
                simp only [kindKeyVal, hk] at h3
                exact Bool.eq_false_iff.mpr h3
              have hkp : pyEq k p = false := by
                rw [(hg e (List.mem_cons_self _ _)).1 p hk]
                exact hpk
              simp only [keyRawUnder, hk]
              exact ⟨hkp, hpk⟩
          | typ ts raw =>
              simp only [keyRawUnder, hk]
              exact (hg e (List.mem_cons_self _ _)).2 ts raw hk
        have hf2 : keysFreeFor k (assocUpdate st.errors (keyRawUnder e.1)
            (PyErr.msg "missing required key")) :=
          keysFreeFor_update _ _ _ _ (Or.inr hraw.2) hf
        obtain ⟨hfind, hfree2⟩ := ih
          { st with errors := (assocUpdate st.errors (keyRawUnder e.1)
              (.msg "missing required key")) }
          hf2 hmem (fun e2 h2 => hg e2 (List.mem_cons_of_mem _ h2))
        refine ⟨?_, hfree2⟩
        rw [hfind]
        exact assocFind_update_other _ _ _ _ hraw.1 hraw.2 hf
      · rw [if_neg hc]
        exact ih st hf hmem (fun e2 h2 => hg e2 (List.mem_cons_of_mem _ h2))

theorem applyDefaults_cons (kv : PyVal × PyVal)
    (rest : List (PyVal × PyVal)) (st : DState) :
    applyDefaults (kv :: rest) st =
      applyDefaults rest
        { st with data := assocSetDefault st.data kv.1 kv.2 } := rfl

theorem applyDefaults_errors :
    ∀ (defaults : List (PyVal × PyVal)) (st : DState),
      (applyDefaults defaults st).errors = st.errors := by
  intro defaults
  induction defaults with
  | nil => intro st; rfl
  | cons kv rest ih =>
      intro st
      rw [applyDefaults_cons]
      exact ih _

theorem applyDefaults_find (k : PyVal) :
    ∀ (defaults : List (PyVal × PyVal)) (st : DState),
      (assocFind st.data k).isSome →
      assocFind (applyDefaults defaults st).data k = assocFind st.data k := by
  intro defaults
  induction defaults with
  | nil => intro st _; rfl
  | cons kv rest ih =>
      intro st h
      rw [applyDefaults_cons]
      have hstep := assocFind_setDefault st.data kv.1 kv.2 k h
      have h2 : (assocFind (assocSetDefault st.data kv.1 kv.2) k).isSome := by
        rw [hstep]
        exact h
      have := ih { st with data := assocSetDefault st.data kv.1 kv.2 } h2
      rw [this]
      exact hstep

theorem dictKeyFree_spec (entries : List (KeySchema × Node))
    (others : List PyVal) (k : PyVal)
    (h : dictKeyFree entries others k = true) :
    pyEq k k = true ∧ plainKey k = true ∧
    (∀ x ∈ others, pyEq k x = false ∧ pyEq x k = false) ∧
    (∀ e ∈ entries,
      (isUsable e.2 = true →
        pyEq k (keyRawTop e.1) = false ∧ pyEq (keyRawTop e.1) k = false) ∧
      (∀ p, e.1.kind = .val p →
        pyEq k p = pyEq p k ∧ ∀ x ∈ others, pyEq x p = pyEq p x) ∧
      (∀ ts raw, e.1.kind = .typ ts raw →
        pyEq k raw = false ∧ pyEq raw k = false)) := by
  rw [dictKeyFree] at h
  simp only [Bool.and_eq_true, List.all_eq_true] at h
  obtain ⟨⟨⟨hkk, hpl⟩, hoth⟩, hent⟩ := h
  refine ⟨hkk, hpl, ?_, ?_⟩
  · intro x hx
    have h1 := hoth x hx
    simp only [Bool.and_eq_true, Bool.not_eq_true'] at h1
    exact h1
  · intro e he
    have h2 := hent e he
    refine ⟨?_, ?_, ?_⟩
    · intro hu
      have h3 := h2.1
      rw [hu] at h3
      simp only [Bool.not_true, Bool.false_or, Bool.and_eq_true,
        Bool.not_eq_true'] at h3
      exact h3
    · intro p hp
      have h4 := h2.2
      rw [hp] at h4
      simp only [Bool.and_eq_true, beq_iff_eq, List.all_eq_true] at h4
      exact h4
    · intro ts raw hk
      have h4 := h2.2
      rw [hk] at h4
      simp only [Bool.and_eq_true, Bool.not_eq_true'] at h4
      exact h4

theorem dictHandleItem_self (entries : List (KeySchema × Node))
    (extra : Extra) (kv : PyVal × PyVal) (st : DState) (r : SchemaResult)
    (hs : seenHasVal st.seen kv.1 = false)
    (hr : dictItemResult entries kv = some r) :
    ∃ (marks : List SeenItem) (tr : Trace),
      dictHandleItem entries extra kv st =
        (extendWithResult kv.1 r { st with seen := st.seen ++ marks },
          tr) := by
  unfold dictHandleItem
  rw [if_neg (by rw [hs]; exact Bool.false_ne_true)]
  by_cases hL : (dictLookup entries kv.1).isSome = true
  · rw [dif_pos hL]
    have hlk : dictLookup entries kv.1 =
        some ((dictLookup entries kv.1).get hL) :=
      (Option.some_get hL).symm
    rw [dictItemResult, hlk] at hr
    injection hr with hr
    refine ⟨[], (runSchema ((dictLookup entries kv.1).get hL) kv.2).2, ?_⟩
    rw [← hr]
    simp
  · rw [dif_neg hL]
    have hnone : dictLookup entries kv.1 = Option.none := by
      revert hL
      cases dictLookup entries kv.1 <;> simp
    rw [dictItemResult, hnone] at hr
    cases hv : (dictProbe entries kv.1).1 with
    | nil =>
        rw [hv] at hr
        simp at hr
    | cons a tail =>
        rw [hv] at hr
        rw [dif_neg (by simp)]
        cases tail with
        | nil =>
            simp at hr
            refine ⟨(dictProbe entries kv.1).2.map SeenItem.ks,
              (runSchema a kv.2).2, ?_⟩
            rw [← hr]
            simp
        | cons b tail2 =>
            simp at hr
            refine ⟨(dictProbe entries kv.1).2.map SeenItem.ks,
              (anySteps (a :: b :: tail2) kv.2 ⟨kv.2, .none⟩).2, ?_⟩
            rw [← hr]
            simp

theorem dictHandleItem_preserve2 (entries : List (KeySchema × Node))
    (extra : Extra) (kv : PyVal × PyVal) (st : DState) (k : PyVal)
    (hd : keysFreeFor k st.data) (he : keysFreeFor k st.errors)
    (hx1 : pyEq k kv.1 = false) (hx2 : pyEq kv.1 k = false) :
    keysFreeFor k (dictHandleItem entries extra kv st).1.data ∧
    keysFreeFor k (dictHandleItem entries extra kv st).1.errors ∧
    assocFind (dictHandleItem entries extra kv st).1.data k =
      assocFind st.data k ∧
    assocFind (dictHandleItem entries extra kv st).1.errors k =
      assocFind st.errors k := by
  rcases dictHandleItem_cases entries extra kv st with hc | hc | hc |
    ⟨r, marks, tr, hc, hmarks⟩
  · rw [hc]
    exact ⟨hd, he, rfl, rfl⟩
  · rw [hc]
    refine ⟨keysFreeFor_update _ _ _ _ (Or.inr hx2) hd, he,
      assocFind_update_other _ _ _ _ hx1 hx2 hd, rfl⟩
  · rw [hc]
    refine ⟨hd, keysFreeFor_update _ _ _ _ (Or.inr hx2) he, rfl,
      assocFind_update_other _ _ _ _ hx1 hx2 he⟩
  · rw [hc]
    obtain ⟨hdata, herr, hsn⟩ := extendWithResult_spec kv.1 r
      { st with seen := st.seen ++ marks }
    refine ⟨?_, ?_, ?_, ?_⟩
    · rw [hdata]
      by_cases hcond : (!isNone r.data || !errTruthy r.errors) = true
      · rw [if_pos hcond]
        exact keysFreeFor_update _ _ _ _ (Or.inr hx2) hd
      · rw [if_neg hcond]
        exact hd
    · rw [herr]
      by_cases hcond : errTruthy r.errors = true
      · rw [if_pos hcond]
        exact keysFreeFor_update _ _ _ _ (Or.inr hx2) he
      · rw [if_neg hcond]
        exact he
    · rw [hdata]
      by_cases hcond : (!isNone r.data || !errTruthy r.errors) = true
      · rw [if_pos hcond]
        exact assocFind_update_other _ _ _ _ hx1 hx2 hd
      · rw [if_neg hcond]
    · rw [herr]
      by_cases hcond : errTruthy r.errors = true
      · rw [if_pos hcond]
        exact assocFind_update_other _ _ _ _ hx1 hx2 he
      · rw [if_neg hcond]

theorem dictItems_preserve2 (entries : List (KeySchema × Node))
    (extra : Extra) (k : PyVal) :
    ∀ (items : List (PyVal × PyVal)) (st : DState),
      keysFreeFor k st.data → keysFreeFor k st.errors →
      (∀ kv ∈ items, pyEq k kv.1 = false ∧ pyEq kv.1 k = false) →
      keysFreeFor k (dictItems entries extra items st).1.data ∧
      keysFreeFor k (dictItems entries extra items st).1.errors ∧
      assocFind (dictItems entries extra items st).1.data k =
        assocFind st.data k ∧
      assocFind (dictItems entries extra items st).1.errors k =
        assocFind st.errors k := by
  intro items
  induction items with
  | nil =>
      intro st hd he hg
      rw [dictItems_nil]
      exact ⟨hd, he, rfl, rfl⟩
  | cons kv rest ih =>
      intro st hd he hg
      have hg0 := hg kv (List.mem_cons_self _ _)
      have hstep := dictHandleItem_preserve2 entries extra kv st k hd he
        hg0.1 hg0.2
      rw [dictItems_cons]
      have hrec := ih (dictHandleItem entries extra kv st).1 hstep.1
        hstep.2.1 (fun kv2 h2 => hg kv2 (List.mem_cons_of_mem _ h2))
      refine ⟨hrec.1, hrec.2.1, ?_, ?_⟩
      · rw [hrec.2.2.1, hstep.2.2.1]
      · rw [hrec.2.2.2, hstep.2.2.2]

theorem dict_item_independent (entries : List (KeySchema × Node))
    (extra : Extra) (defaults : List (PyVal × PyVal))
    (pre post : List (PyVal × PyVal)) (k v : PyVal) (r : SchemaResult)
    (hfree : dictKeyFree entries ((pre ++ post).map Prod.fst) k = true)
    (hr : dictItemResult entries (k, v) = some r) :
    ((!isNone r.data || !errTruthy r.errors) = true →
      ∃ l, (runSchema (.dictN entries extra defaults)
          (.dict (pre ++ (k, v) :: post))).1.data = .dict l ∧
        assocFind l k = some r.data) ∧
    (∃ el, (runSchema (.dictN entries extra defaults)
        (.dict (pre ++ (k, v) :: post))).1.errors = .map el ∧
      assocFind el k =
        (if errTruthy r.errors then some (wrapErr r.errors)
         else Option.none)) := by
  obtain ⟨hkk, hpl, hoth, hent⟩ := dictKeyFree_spec entries _ k hfree
  set items := pre ++ (k, v) :: post with hitems
  have hst0 := dictUsables_preserve k hpl entries (.dict items) ⟨[], [], []⟩
    (by intro p hp; cases hp) (by intro p hp; cases hp)
    (by intro it hit; cases hit)
    (by intro e he hu; exact (hent e he).1 hu)
  set st0 := (dictUsables entries (.dict items) ⟨[], [], []⟩).1 with hst0def
  have hpreg : ∀ kv2 ∈ pre, pyEq k kv2.1 = false ∧ pyEq kv2.1 k = false ∧
      (∀ e ∈ entries, ∀ p, e.1.kind = .val p →
        pyEq kv2.1 p = pyEq p kv2.1) := by
    intro kv2 h2
    have hmem : kv2.1 ∈ (pre ++ post).map Prod.fst :=
      List.mem_map_of_mem _ (List.mem_append_left _ h2)
    refine ⟨(hoth kv2.1 hmem).1, (hoth kv2.1 hmem).2, ?_⟩
    intro e he p hp
    exact ((hent e he).2.1 p hp).2 kv2.1 hmem
  have hst1 := dictItems_preserve entries extra k hpl pre st0
    hst0.1 hst0.2.1 hst0.2.2.1 hpreg
  set st1 := (dictItems entries extra pre st0).1 with hst1def
  have hfd1 : assocFind st1.data k = Option.none := by
    rw [hst1.2.2.2.1, hst0.2.2.2.1]
    rfl
  have hfe1 : assocFind st1.errors k = Option.none := by
    rw [hst1.2.2.2.2, hst0.2.2.2.2]
    rfl
  have hseen1 : seenHasVal st1.seen k = false :=
    seenHasVal_false_of_free k st1.seen hst1.2.2.1
  obtain ⟨marks, tr, hhandle⟩ := dictHandleItem_self entries extra (k, v)
    st1 r hseen1 hr
  set st2 := (dictHandleItem entries extra (k, v) st1).1 with hst2def
  have hst2eq : st2 =
      extendWithResult k r { st1 with seen := st1.seen ++ marks } := by
    rw [hst2def, hhandle]
  obtain ⟨h2data, h2err, h2seen⟩ :=
    extendWithResult_spec k r { st1 with seen := st1.seen ++ marks }
  have hfd2 : assocFind st2.data k =
      (if (!isNone r.data || !errTruthy r.errors) then some r.data
       else Option.none) := by
    rw [hst2eq, h2data]
    by_cases hcond : (!isNone r.data || !errTruthy r.errors) = true
    · rw [if_pos hcond, if_pos hcond]
      exact assocFind_update_self _ _ _ hkk hst1.1
    · rw [if_neg hcond, if_neg hcond]
      exact hfd1
  have hfe2 : assocFind st2.errors k =
      (if errTruthy r.errors then some (wrapErr r.errors)
       else Option.none) := by
    rw [hst2eq, h2err]
    by_cases hcond : errTruthy r.errors = true
    · rw [if_pos hcond, if_pos hcond]
      exact assocFind_update_self _ _ _ hkk hst1.2.1
    · rw [if_neg hcond, if_neg hcond]
      exact hfe1
  have hkd2 : keysFreeFor k st2.data := by
    rw [hst2eq, h2data]
    by_cases hcond : (!isNone r.data || !errTruthy r.errors) = true
    · rw [if_pos hcond]
      exact keysFreeFor_update _ _ _ _ (Or.inl rfl) hst1.1
    · rw [if_neg hcond]
      exact hst1.1
  have hke2 : keysFreeFor k st2.errors := by
    rw [hst2eq, h2err]
    by_cases hcond : errTruthy r.errors = true
    · rw [if_pos hcond]
      exact keysFreeFor_update _ _ _ _ (Or.inl rfl) hst1.2.1
    · rw [if_neg hcond]
      exact hst1.2.1
  have hmem2 : SeenItem.v k ∈ st2.seen := by
    rw [hst2eq, h2seen]
    exact List.mem_append_right _ (List.mem_cons_self _ _)
  have hpostg : ∀ kv2 ∈ post, pyEq k kv2.1 = false ∧
      pyEq kv2.1 k = false := by
    intro kv2 h2
    exact hoth kv2.1
      (List.mem_map_of_mem _ (List.mem_append_right _ h2))
  have hst3 := dictItems_preserve2 entries extra k post st2 hkd2 hke2 hpostg
  set st3 := (dictItems entries extra post st2).1 with hst3def
  have hmem3 : SeenItem.v k ∈ st3.seen := by
    obtain ⟨ext, hext⟩ := dictItems_seen_ext entries extra post st2
    rw [hst3def, hext]
    exact List.mem_append_left _ hmem2
  have hguards : ∀ e ∈ entries,
      (∀ p, e.1.kind = .val p → pyEq k p = pyEq p k) ∧
      (∀ ts raw, e.1.kind = .typ ts raw →
        pyEq k raw = false ∧ pyEq raw k = false) := by
    intro e he
    exact ⟨fun p hp => ((hent e he).2.1 p hp).1,
      fun ts raw htr => (hent e he).2.2 ts raw htr⟩
  obtain ⟨hfindM, hfreeM⟩ :=
    applyMissing_errors k hkk entries st3 hst3.2.1 hmem3 hguards
  have hdataM := (applyMissing_data_seen entries st3).1
  set st4 := applyDefaults defaults (applyMissing entries st3) with hst4def
  have herr4 : st4.errors = (applyMissing entries st3).errors :=
    applyDefaults_errors defaults _
  have hitems2 : (dictItems entries extra items st0).1 = st3 := by
    rw [hitems]
    rw [dictItems_fst_append entries extra ((k, v) :: post) pre st0]
    rw [dictItems_cons]
  have hfinal : dictFinalState entries extra defaults items = st4 := by
    rw [dictFinalState, hitems2]
  have hfe4 : assocFind st4.errors k =
      (if errTruthy r.errors then some (wrapErr r.errors)
       else Option.none) := by
    rw [herr4, hfindM, hst3.2.2.2, hfe2]
  constructor
  · intro hcond
    have h5 : assocFind (applyMissing entries st3).data k = some r.data := by
      rw [hdataM, hst3.2.2.1, hfd2, if_pos hcond]
    have hfd4 : assocFind st4.data k = some r.data := by
      rw [hst4def, applyDefaults_find k defaults (applyMissing entries st3)
        (by rw [h5]; rfl)]
      exact h5
    have hne : st4.data.isEmpty = false :=
      assocFind_ne_nil _ k (by rw [hfd4]; rfl)
    refine ⟨st4.data, ?_, hfd4⟩
    rw [runSchema_dictN, hfinal]
    simp [hne]
  · refine ⟨st4.errors, ?_, hfe4⟩
    rw [runSchema_dictN, hfinal]

/-- C1: Sibling failures never block loading.  For a `Dict` schema and an
input mapping split as `pre ++ (k, v) :: post` whose key `k` is
independent of the schema entries and the sibling keys, the outcome
computed for `(k, v)` from that pair alone is reflected in the final
result no matter what the siblings produce: its data is stored under `k`
whenever the pair's result carries data or no error (partial loads
included), and its wrapped error is keyed by `k` exactly when the pair's
result failed.  For a sequence schema, an element that loads a value
contributes it to the output data in input position regardless of the
surrounding elements. -/
theorem dict_list_sibling_independence (entries : List (KeySchema × Node))
    (extra : Extra) (defaults : List (PyVal × PyVal))
    (pre post : List (PyVal × PyVal)) (k v : PyVal) (r : SchemaResult)
    (hfree : dictKeyFree entries ((pre ++ post).map Prod.fst) k = true)
    (hr : dictItemResult entries (k, v) = some r)
    (elem : Node) (lpre lpost : List PyVal) (x : PyVal)
    (hx : isNone (runSchema elem x).1.data = false) :
    (((!isNone r.data || !errTruthy r.errors) = true →
      ∃ l, (runSchema (.dictN entries extra defaults)
          (.dict (pre ++ (k, v) :: post))).1.data = .dict l ∧
        assocFind l k = some r.data) ∧
    (∃ el, (runSchema (.dictN entries extra defaults)
        (.dict (pre ++ (k, v) :: post))).1.errors = .map el ∧
      assocFind el k =
        (if errTruthy r.errors then some (wrapErr r.errors)
         else Option.none))) ∧
    (runSchema (.listN elem) (.list (lpre ++ x :: lpost))).1.data =
      .list (listLoadedData elem lpre ++
        (runSchema elem x).1.data :: listLoadedData elem lpost) := by
  refine ⟨dict_item_independent entries extra defaults pre post k v r
    hfree hr, ?_⟩
  have h1 : listLoadedData elem (x :: lpost) =
      (runSchema elem x).1.data :: listLoadedData elem lpost := by
    simp only [listLoadedData, List.filterMap_cons, hx, Bool.false_eq_true,
      if_false]
  have hdecomp : listLoadedData elem (lpre ++ x :: lpost) =
      listLoadedData elem lpre ++
        (runSchema elem x).1.data :: listLoadedData elem lpost := by
    rw [listLoadedData_append, h1]
  have hne2 : (listLoadedData elem lpre ++
      (runSchema elem x).1.data :: listLoadedData elem lpost).isEmpty =
        false := by
    cases h : listLoadedData elem lpre with
    | nil => rfl
    | cons a t => rfl
  rw [runSchema_listN_list]
  simp only [listItems_fst, hdecomp, hne2, Bool.false_and,
    Bool.false_eq_true, if_false]

/-- Closed witness for the sibling-independence theorem: with the spec
`{'a': int, 'b': int}` and the input `{'a': 'bad', 'b': 2}` the key
`'b'` loads `2` although its sibling `'a'` fails, and `[int]` applied to
`['q', 5]` keeps `5` although `'q'` fails. -/
theorem dict_list_sibling_independence_witness :
    dictKeyFree
        [(⟨.val (.str "a"), false⟩, .typeN [.intT]),
         (⟨.val (.str "b"), false⟩, .typeN [.intT])]
        (([(PyVal.str "a", PyVal.str "bad")] ++
          ([] : List (PyVal × PyVal))).map Prod.fst) (.str "b") = true ∧
    dictItemResult
        [(⟨.val (.str "a"), false⟩, .typeN [.intT]),
         (⟨.val (.str "b"), false⟩, .typeN [.intT])]
        (.str "b", .int 2) = some ⟨.int 2, .none⟩ ∧
    isNone (runSchema (.typeN [.intT]) (.int 5)).1.data = false ∧
    ((((!isNone (PyVal.int 2) || !errTruthy PyErr.none) = true →
      ∃ l, (runSchema
          (.dictN
            [(⟨.val (.str "a"), false⟩, .typeN [.intT]),
             (⟨.val (.str "b"), false⟩, .typeN [.intT])] .ignore [])
          (.dict ([(PyVal.str "a", PyVal.str "bad")] ++
            (PyVal.str "b", PyVal.int 2) :: []))).1.data = .dict l ∧
        assocFind l (.str "b") = some (PyVal.int 2)) ∧
     (∃ el, (runSchema
          (.dictN
            [(⟨.val (.str "a"), false⟩, .typeN [.intT]),
             (⟨.val (.str "b"), false⟩, .typeN [.intT])] .ignore [])
          (.dict ([(PyVal.str "a", PyVal.str "bad")] ++
            (PyVal.str "b", PyVal.int 2) :: []))).1.errors = .map el ∧
       assocFind el (.str "b") =
         (if errTruthy PyErr.none then some (wrapErr PyErr.none)
          else Option.none))) ∧
     (runSchema (.listN (.typeN [.intT]))
        (.list ([PyVal.str "q"] ++ PyVal.int 5 :: []))).1.data =
       .list (listLoadedData (.typeN [.intT]) [PyVal.str "q"] ++
         (runSchema (.typeN [.intT]) (.int 5)).1.data ::
           listLoadedData (.typeN [.intT]) ([] : List PyVal))) := by
  have h1 : dictKeyFree
      [(⟨.val (.str "a"), false⟩, .typeN [.intT]),
       (⟨.val (.str "b"), false⟩, .typeN [.intT])]
      (([(PyVal.str "a", PyVal.str "bad")] ++
        ([] : List (PyVal × PyVal))).map Prod.fst) (.str "b") = true := by
    simp [dictKeyFree, plainKey, pyEq, isUsable]
  have h2 : dictItemResult
      [(⟨.val (.str "a"), false⟩, .typeN [.intT]),
       (⟨.val (.str "b"), false⟩, .typeN [.intT])]
      (.str "b", .int 2) = some ⟨.int 2, .none⟩ := by
    simp [dictItemResult, dictLookup, keyWrapperEqVal, kindKeyVal, pyEq,
      runSchema_eq, nodeEval, isinstAny, isinst]
  have h3 : isNone (runSchema (.typeN [.intT]) (.int 5)).1.data = false := by
    simp [runSchema_eq, nodeEval, isinstAny, isinst, isNone]
  exact ⟨h1, h2, h3, dict_list_sibling_independence _ _ _ _ _ _ _ _
    h1 h2 _ _ _ _ h3⟩

theorem dictProbeAux_vals (k : PyVal) :
    ∀ (es : List (KeySchema × Node)) (accVs : List Node)
      (accKs : List KeySchema) (n : Node),
      n ∈ (dictProbeAux k es accVs accKs).1 →
      n ∈ accVs ∨ ∃ e ∈ es, e.2 = n ∧ isUsable e.2 = false ∧
        keyAccepts e.1 k = true := by
  intro es
  induction es with
  | nil =>
      intro accVs accKs n hn
      exact Or.inl hn
  | cons e rest ih =>
      intro accVs accKs n hn
      obtain ⟨ks, v⟩ := e
      simp only [dictProbeAux] at hn
      by_cases hu : isUsable v = true
      · rw [if_pos hu] at hn
        rcases ih _ _ _ hn with h | ⟨e2, he2, h2⟩
        · exact Or.inl h
        · exact Or.inr ⟨e2, List.mem_cons_of_mem _ he2, h2⟩
      · rw [if_neg hu] at hn
        by_cases ha : keyAccepts ks k = true
        · rw [if_pos ha] at hn
          have hn2 : n ∈ (dictProbeAux k rest
              (if accVs.any (fun a => nodeBeq a v) then accVs
               else accVs ++ [v]) (accKs ++ [ks])).1 := hn
          rcases ih _ _ _ hn2 with h | ⟨e2, he2, h2⟩
          · by_cases hd : accVs.any (fun a => nodeBeq a v) = true
            · rw [if_pos hd] at h
              exact Or.inl h
            · rw [if_neg hd] at h
              rcases List.mem_append.mp h with h3 | h3
              · exact Or.inl h3
              · rw [List.mem_singleton] at h3
                exact Or.inr ⟨(ks, v), List.mem_cons_self _ _, h3.symm,
                  Bool.eq_false_iff.mpr hu, ha⟩
          · exact Or.inr ⟨e2, List.mem_cons_of_mem _ he2, h2⟩
        · rw [if_neg ha] at hn
          rcases ih _ _ _ hn with h | ⟨e2, he2, h2⟩
          · exact Or.inl h
          · exact Or.inr ⟨e2, List.mem_cons_of_mem _ he2, h2⟩

theorem dictProbe_vals (entries : List (KeySchema × Node)) (k : PyVal)
    (n : Node) (hn : n ∈ (dictProbe entries k).1) :
    ∃ e ∈ entries, e.2 = n ∧ isUsable e.2 = false ∧
      keyAccepts e.1 k = true := by
  rcases dictProbeAux_vals k entries [] [] n hn with h | h
  · cases h
  · exact h

/-- C2: When the input key compares equal to a literal key schema
(`key in self.schema`), that entry's value schema is the sole candidate:
the key is handled exactly by evaluating it, its result alone extends the
state, and its trace is the whole trace of the step, so no type-based key
schema is additionally consulted.  When no exact match exists, every
probed candidate's key schema must itself accept the input key (a type
key schema only matches by `isinstance`). -/
theorem dict_exact_key_match (entries : List (KeySchema × Node))
    (extra : Extra) (kv : PyVal × PyVal) (st : DState) (vnode : Node)
    (hs : seenHasVal st.seen kv.1 = false)
    (hL : dictLookup entries kv.1 = some vnode) :
    dictHandleItem entries extra kv st =
      (extendWithResult kv.1 (runSchema vnode kv.2).1 st,
        (runSchema vnode kv.2).2) ∧
    dictItemResult entries kv = some (runSchema vnode kv.2).1 ∧
    (∀ (k2 : PyVal), ∀ n ∈ (dictProbe entries k2).1,
      ∃ e ∈ entries, e.2 = n ∧ isUsable e.2 = false ∧
        keyAccepts e.1 k2 = true) := by
  have hLs : (dictLookup entries kv.1).isSome = true := by
    rw [hL]
    rfl
  have hget : (dictLookup entries kv.1).get hLs = vnode := by
    have h2 : some ((dictLookup entries kv.1).get hLs) = some vnode :=
      (Option.some_get hLs).trans hL
    injection h2
  refine ⟨?_, ?_, ?_⟩
  · unfold dictHandleItem
    rw [if_neg (by rw [hs]; exact Bool.false_ne_true)]
    rw [dif_pos hLs, hget]
  · rw [dictItemResult, hL]
  · intro k2 n hn
    exact dictProbe_vals entries k2 n hn

/-- Closed witness for the exact-key-match theorem: with the spec
`{'a': int, str: str}` and the input pair `('a', 1)` the key `'a'` is
handled by the `int` value schema alone. -/
theorem dict_exact_key_match_witness :
    seenHasVal (DState.mk [] [] []).seen (PyVal.str "a", PyVal.int 1).1 =
      false ∧
    dictLookup
        [(⟨.val (.str "a"), false⟩, .typeN [.intT]),
         (⟨.typ [.strT] (.pytype .strT), false⟩, .typeN [.strT])]
        (PyVal.str "a", PyVal.int 1).1 = some (.typeN [.intT]) ∧
    dictHandleItem
        [(⟨.val (.str "a"), false⟩, .typeN [.intT]),
         (⟨.typ [.strT] (.pytype .strT), false⟩, .typeN [.strT])]
        .ignore (PyVal.str "a", PyVal.int 1) ⟨[], [], []⟩ =
      (extendWithResult (PyVal.str "a", PyVal.int 1).1
        (runSchema (.typeN [.intT]) (PyVal.str "a", PyVal.int 1).2).1
        ⟨[], [], []⟩,
       (runSchema (.typeN [.intT]) (PyVal.str "a", PyVal.int 1).2).2) := by
  have h1 : seenHasVal (DState.mk [] [] []).seen
      (PyVal.str "a", PyVal.int 1).1 = false := by
    simp [seenHasVal]
  have h2 : dictLookup
      [(⟨.val (.str "a"), false⟩, .typeN [.intT]),
       (⟨.typ [.strT] (.pytype .strT), false⟩, .typeN [.strT])]
      (PyVal.str "a", PyVal.int 1).1 = some (.typeN [.intT]) := by
    simp [dictLookup, keyWrapperEqVal, kindKeyVal, pyEq]
  exact ⟨h1, h2, (dict_exact_key_match _ .ignore _ _ _ h1 h2).1⟩

theorem runSchema_useN (u : UseSpec) (x : PyVal) :
    runSchema (.useN u) x =
      (⟨u.ret, .none⟩, if u.isCall then [.callUse u.name] else []) := by
  rw [runSchema_eq]
  simp [nodeEval]

theorem dictUsables_append (obj : PyVal) (B : List (KeySchema × Node)) :
    ∀ (A : List (KeySchema × Node)) (st : DState),
      dictUsables (A ++ B) obj st =
        ((dictUsables B obj (dictUsables A obj st).1).1,
         (dictUsables A obj st).2 ++
           (dictUsables B obj (dictUsables A obj st).1).2) := by
  intro A
  induction A with
  | nil =>
      intro st
      simp [dictUsables_nil]
  | cons e rest ih =>
      intro st
      obtain ⟨ks, v⟩ := e
      simp only [List.cons_append, dictUsables_cons]
      by_cases hu : isUsable v = true
      · rw [if_pos hu, if_pos hu]
        rw [ih]
        simp [List.append_assoc]
      · rw [if_neg hu, if_neg hu]
        exact ih st

theorem dictUsables_seen_ext (obj : PyVal) :
    ∀ (es : List (KeySchema × Node)) (st : DState),
      ∃ ext, (dictUsables es obj st).1.seen = st.seen ++ ext := by
  intro es
  induction es with
  | nil =>
      intro st
      rw [dictUsables_nil]
      exact ⟨[], (List.append_nil _).symm⟩
  | cons e rest ih =>
      intro st
      obtain ⟨ks, v⟩ := e
      rw [dictUsables_cons]
      by_cases hu : isUsable v = true
      · rw [if_pos hu]
        obtain ⟨ext, hext⟩ := ih (extendWithResult (keyRawTop ks)
          (runSchema v obj).1 { st with seen := st.seen ++ [.ks ks] })
        have hseen := (extendWithResult_spec (keyRawTop ks)
          (runSchema v obj).1 { st with seen := st.seen ++ [.ks ks] }).2.2
        refine ⟨[SeenItem.ks ks] ++ ([.v (keyRawTop ks)] ++ ext), ?_⟩
        rw [hext, hseen]
        simp
      · rw [if_neg hu]
        exact ih st

theorem seenHasVal_of_ks (seen : List SeenItem) (ks0 : KeySchema)
    (k : PyVal) (hmem : SeenItem.ks ks0 ∈ seen)
    (heq : keyWrapperEqVal ks0 k = true) : seenHasVal seen k = true := by
  rw [seenHasVal, List.any_eq_true]
  exact ⟨.ks ks0, hmem, heq⟩

theorem seenHasKS_of_mem (seen : List SeenItem) (ks0 : KeySchema)
    (hmem : SeenItem.ks ks0 ∈ seen) (hrefl : ksBeq ks0 ks0 = true) :
    seenHasKS seen ks0 = true := by
  rw [seenHasKS, List.any_eq_true]
  exact ⟨.ks ks0, hmem, hrefl⟩

theorem applyMissing_step_seen (e : KeySchema × Node) (st : DState) :
    (if !e.1.opt && !seenHasKS st.seen e.1 then
      { st with errors := (assocUpdate st.errors (keyRawUnder e.1)
          (.msg "missing required key")) }
     else st).seen = st.seen := by
  by_cases hc : (!e.1.opt && !seenHasKS st.seen e.1) = true
  · rw [if_pos hc]
  · rw [if_neg hc]

theorem applyMissing_skip (ks0 : KeySchema) (v0 : Node)
    (B : List (KeySchema × Node)) :
    ∀ (A : List (KeySchema × Node)) (st : DState),
      seenHasKS st.seen ks0 = true →
      applyMissing (A ++ (ks0, v0) :: B) st = applyMissing (A ++ B) st := by
  intro A
  induction A with
  | nil =>
      intro st hs
      rw [List.nil_append, List.nil_append, applyMissing_cons]
      rw [if_neg (by simp [hs])]
  | cons a rest ih =>
      intro st hs
      rw [List.cons_append, List.cons_append, applyMissing_cons,
        applyMissing_cons]
      apply ih
      rw [applyMissing_step_seen]
      exact hs

theorem dictProbe_no_use (entries : List (KeySchema × Node)) (u : UseSpec)
    (k2 : PyVal) : Node.useN u ∉ (dictProbe entries k2).1 := by
  intro hmem
  obtain ⟨e, he, heq, hus, hacc⟩ := dictProbe_vals entries k2 _ hmem
  rw [heq] at hus
  simp [isUsable] at hus

/-- C10: A `Use`-valued `Dict` entry is evaluated by the usables pass
exactly once per call, against the entire input object, with its result
recorded under the entry's raw key spec and its key schema marked seen;
the usables trace precedes the input-items trace; a later input key
comparing equal to the entry's key schema is skipped outright; the
seen-marked entry contributes no `missing required key` error; and the
entry's `Use` schema is never a probe candidate for any input key. -/
theorem dict_use_entry_semantics (epre epost : List (KeySchema × Node))
    (ks0 : KeySchema) (u : UseSpec) (extra : Extra) (obj : PyVal)
    (st : DState) (hrefl : ksBeq ks0 ks0 = true) :
    (dictUsables (epre ++ (ks0, .useN u) :: epost) obj st =
      ((dictUsables epost obj
          (extendWithResult (keyRawTop ks0) ⟨u.ret, .none⟩
            { (dictUsables epre obj st).1 with
              seen := (dictUsables epre obj st).1.seen ++ [.ks ks0] })).1,
       (dictUsables epre obj st).2 ++
         ((if u.isCall then [Event.callUse u.name] else []) ++
           (dictUsables epost obj
             (extendWithResult (keyRawTop ks0) ⟨u.ret, .none⟩
               { (dictUsables epre obj st).1 with
                 seen := (dictUsables epre obj st).1.seen ++
                   [.ks ks0] })).2))) ∧
    (∀ (defaults : List (PyVal × PyVal)) (items : List (PyVal × PyVal)),
      (nodeEval (.dictN (epre ++ (ks0, .useN u) :: epost) extra defaults)
          (.dict items)).2 =
        (dictUsables (epre ++ (ks0, .useN u) :: epost) (.dict items)
          ⟨[], [], []⟩).2 ++
        (dictItems (epre ++ (ks0, .useN u) :: epost) extra items
          (dictUsables (epre ++ (ks0, .useN u) :: epost) (.dict items)
            ⟨[], [], []⟩).1).2) ∧
    seenHasKS
      (dictUsables (epre ++ (ks0, .useN u) :: epost) obj st).1.seen ks0 =
      true ∧
    (∀ (k v : PyVal) (st2 : DState), SeenItem.ks ks0 ∈ st2.seen →
      keyWrapperEqVal ks0 k = true →
      dictHandleItem (epre ++ (ks0, .useN u) :: epost) extra (k, v) st2 =
        (st2, [])) ∧
    (∀ st2 : DState, seenHasKS st2.seen ks0 = true →
      applyMissing (epre ++ (ks0, .useN u) :: epost) st2 =
        applyMissing (epre ++ epost) st2) ∧
    (∀ k2 : PyVal, Node.useN u ∉
      (dictProbe (epre ++ (ks0, .useN u) :: epost) k2).1) := by
  have h1 : dictUsables (epre ++ (ks0, .useN u) :: epost) obj st =
      ((dictUsables epost obj
          (extendWithResult (keyRawTop ks0) ⟨u.ret, .none⟩
            { (dictUsables epre obj st).1 with
              seen := (dictUsables epre obj st).1.seen ++ [.ks ks0] })).1,
       (dictUsables epre obj st).2 ++
         ((if u.isCall then [Event.callUse u.name] else []) ++
           (dictUsables epost obj
             (extendWithResult (keyRawTop ks0) ⟨u.ret, .none⟩
               { (dictUsables epre obj st).1 with
                 seen := (dictUsables epre obj st).1.seen ++
                   [.ks ks0] })).2)) := by
    rw [dictUsables_append obj ((ks0, .useN u) :: epost) epre st]
    rw [dictUsables_cons,
      if_pos (show isUsable (Node.useN u) = true from rfl), runSchema_useN]
  refine ⟨h1, ?_, ?_, ?_, ?_, ?_⟩
  · intro defaults items
    simp [nodeEval]
  · have hmem : SeenItem.ks ks0 ∈
        (dictUsables (epre ++ (ks0, .useN u) :: epost) obj st).1.seen := by
      rw [h1]
      obtain ⟨ext, hext⟩ := dictUsables_seen_ext obj epost
        (extendWithResult (keyRawTop ks0) ⟨u.ret, .none⟩
          { (dictUsables epre obj st).1 with
            seen := (dictUsables epre obj st).1.seen ++ [.ks ks0] })
      rw [hext]
      have hseen := (extendWithResult_spec (keyRawTop ks0)
        ⟨u.ret, .none⟩
        { (dictUsables epre obj st).1 with
          seen := (dictUsables epre obj st).1.seen ++ [.ks ks0] }).2.2
      rw [hseen]
      simp
    exact seenHasKS_of_mem _ _ hmem hrefl
  · intro k v st2 hmem heq
    have hsv : seenHasVal st2.seen k = true :=
      seenHasVal_of_ks st2.seen ks0 k hmem heq
    unfold dictHandleItem
    rw [if_pos hsv]
  · intro st2 hs2
    exact applyMissing_skip ks0 (.useN u) epost epre st2 hs2
  · intro k2
    exact dictProbe_no_use _ u k2

/-- Closed witness for the `Use`-entry theorem: with the single entry
`{'w': Use(f)}` the usables pass marks the `'w'` key schema as seen. -/
theorem dict_use_entry_semantics_witness :
    ksBeq ⟨.val (.str "w"), false⟩ ⟨.val (.str "w"), false⟩ = true ∧
    seenHasKS
      (dictUsables (([] : List (KeySchema × Node)) ++
          (⟨.val (.str "w"), false⟩,
            Node.useN ⟨true, "mk", .int 7⟩) :: [])
        (.dict []) ⟨[], [], []⟩).1.seen ⟨.val (.str "w"), false⟩ =
      true := by
  have h1 : ksBeq ⟨.val (.str "w"), false⟩ ⟨.val (.str "w"), false⟩ =
      true := by
    simp [ksBeq, kindKeyVal, pyEq]
  exact ⟨h1, (dict_use_entry_semantics [] [] ⟨.val (.str "w"), false⟩
    ⟨true, "mk", .int 7⟩ .ignore (.dict []) ⟨[], [], []⟩ h1).2.2.1⟩

/-- C7: `Dict.compile` orders entries by `_spec_priority_sort_key`, which
returns `-1` for `Value`-keyed entries and `-2` for all others, so the
stable sort places the literal (`Value`) key schemas AFTER the type key
schemas — the opposite of the priority stated by the code's own comment
and the spec.  Compiling `{'a': int, str: str}` yields the `str` type key
first and the literal `'a'` key last. -/
theorem dict_priority_sort_value_keys_last :
    specPrioritySortKey
        ((⟨.val (.str "a"), false, .notSet⟩ : PreKey), Node.typeN [.intT]) =
      -1 ∧
    specPrioritySortKey
        ((⟨.typ [.strT] (.pytype .strT), false, .notSet⟩ : PreKey),
          Node.typeN [.strT]) = -2 ∧
    dictPrioritySort
        [(⟨.val (.str "a"), false, .notSet⟩, .typeN [.intT]),
         (⟨.typ [.strT] (.pytype .strT), false, .notSet⟩, .typeN [.strT])] =
      [(⟨.typ [.strT] (.pytype .strT), false, .notSet⟩, .typeN [.strT]),
       (⟨.val (.str "a"), false, .notSet⟩, .typeN [.intT])] ∧
    (dictCompile
        [(⟨.val (.str "a"), false, .notSet⟩, .typeN [.intT]),
         (⟨.typ [.strT] (.pytype .strT), false, .notSet⟩, .typeN [.strT])]
        .ignore 0).1 =
      .dictN
        [(⟨.typ [.strT] (.pytype .strT), false⟩, .typeN [.strT]),
         (⟨.val (.str "a"), false⟩, .typeN [.intT])] .ignore [] := by
  refine ⟨rfl, rfl, rfl, rfl⟩

/-- C8 (amended): exception handling is per wrapper, and not every
user-callable exception is caught.  A raising `Validate` predicate is
caught and fails with a message naming the callable and the offending
value only (the original exception's class and message are discarded); a
raising `As`/`Select` transform step is caught and fails with a message
naming the callable, the value, and the exception's class and message;
but a `Use` callable is invoked with no handler of its own and
`Schema.__call__` catches only `AssertionError`, so a
non-`AssertionError` exception raised by a `Use` callable propagates
uncaught out of the call (an `AssertionError` it raises is converted to
`SchemaResult(None, str(exc))`). -/
theorem callable_exception_handling (c : PyCallable) (x : PyVal)
    (exc : PyExc) (hfail : c.fn x = .error exc) :
    runSchema (.validate c) x =
      (⟨.none, .msg (validateErrMsg c.name x)⟩, [.callValidate c.name x]) ∧
    runSchema (.asN c) x =
      (⟨.none, .msg (asErrMsg c.name x exc.cls exc.msg)⟩,
        [.callAs c.name x]) ∧
    (∀ (u : UseCallable) (e2 : PyExc), u.call = .error e2 →
      e2.cls ≠ "AssertionError" → schemaCallUse u = .raises e2) ∧
    (∀ (u : UseCallable) (e2 : PyExc), u.call = .error e2 →
      e2.cls = "AssertionError" →
      schemaCallUse u = .returns ⟨.none, .msg e2.msg⟩) ∧
    (∀ (u : UseCallable) (v : PyVal), u.call = .ok v →
      schemaCallUse u = .returns ⟨v, .none⟩) := by
  refine ⟨?_, ?_, ?_, ?_, ?_⟩
  · rw [runSchema_eq]
    simp [nodeEval, hfail, pyTruthy, isNone]
  · rw [runSchema_eq]
    simp [nodeEval, hfail]
  · intro u e2 hu hcls
    rw [schemaCallUse, hu]
    simp [hcls]
  · intro u e2 hu hcls
    rw [schemaCallUse, hu]
    simp [hcls]
  · intro u v hu
    rw [schemaCallUse, hu]

/-- C8 counterexample: a `Validate` predicate raising
`ValueError('boom')` on input `3` is converted into the failure message
`"p(3) should evaluate to True"`, which names neither the exception class
`ValueError` nor its message `boom` — unlike the `As` message, which
includes both; and a `Use` callable raising the same `ValueError`
propagates it uncaught out of `Schema.__call__` instead of producing any
validation failure. -/
theorem callable_exception_message_counterexample :
    runSchema
        (.validate ⟨"p", fun _ => .error ⟨"ValueError", "boom"⟩⟩)
        (.int 3) =
      (⟨.none, .msg (validateErrMsg "p" (.int 3))⟩,
        [.callValidate "p" (.int 3)]) ∧
    validateErrMsg "p" (.int 3) = "p(3) should evaluate to True" ∧
    asErrMsg "p" (.int 3) "ValueError" "boom" =
      "p(3) should not raise an exception: ValueError: boom" ∧
    schemaCallUse ⟨"u", .error ⟨"ValueError", "boom"⟩⟩ =
      .raises ⟨"ValueError", "boom"⟩ := by
  refine ⟨?_, rfl, rfl, rfl⟩
  rw [runSchema_eq]
  simp [nodeEval, pyTruthy, isNone]

/-- Closed witness for the exception-handling theorem: the raising
predicate `p` is caught on input `3` for both `Validate` and `As`, and
the `Use`-callable clauses are discharged at a raising callable. -/
theorem callable_exception_handling_witness :
    (PyCallable.mk "p" (fun _ => .error ⟨"ValueError", "boom"⟩)).fn
        (.int 3) = .error ⟨"ValueError", "boom"⟩ ∧
    (runSchema
        (.validate ⟨"p", fun _ => .error ⟨"ValueError", "boom"⟩⟩)
        (.int 3) =
      (⟨.none, .msg (validateErrMsg "p" (.int 3))⟩,
        [.callValidate "p" (.int 3)]) ∧
     runSchema (.asN ⟨"p", fun _ => .error ⟨"ValueError", "boom"⟩⟩)
        (.int 3) =
      (⟨.none, .msg (asErrMsg "p" (.int 3) "ValueError" "boom")⟩,
        [.callAs "p" (.int 3)]) ∧
     schemaCallUse ⟨"u", .error ⟨"ValueError", "boom"⟩⟩ =
       .raises ⟨"ValueError", "boom"⟩) :=
  ⟨rfl,
   (callable_exception_handling
     ⟨"p", fun _ => .error ⟨"ValueError", "boom"⟩⟩ (.int 3)
     ⟨"ValueError", "boom"⟩ rfl).1,
   (callable_exception_handling
     ⟨"p", fun _ => .error ⟨"ValueError", "boom"⟩⟩ (.int 3)
     ⟨"ValueError", "boom"⟩ rfl).2.1,
   (callable_exception_handling
     ⟨"p", fun _ => .error ⟨"ValueError", "boom"⟩⟩ (.int 3)
     ⟨"ValueError", "boom"⟩ rfl).2.2.1
     ⟨"u", .error ⟨"ValueError", "boom"⟩⟩ ⟨"ValueError", "boom"⟩ rfl
     (by simp)⟩

theorem eval_no_callGen :
    (∀ (n : Node) (x : PyVal),
      ∀ ev ∈ (nodeEval n x).2, isCallGen ev = false) ∧
    (∀ (entries : List (KeySchema × Node)) (extra : Extra)
        (items : List (PyVal × PyVal)) (st : DState),
      ∀ ev ∈ (dictItems entries extra items st).2, isCallGen ev = false) ∧
    (∀ (entries : List (KeySchema × Node)) (extra : Extra)
        (kv : PyVal × PyVal) (st : DState),
      ∀ ev ∈ (dictHandleItem entries extra kv st).2, isCallGen ev = false) ∧
    (∀ (ns : List Node) (obj : PyVal) (r : SchemaResult),
      ∀ ev ∈ (anySteps ns obj r).2, isCallGen ev = false) ∧
    (∀ (n : Node) (x : PyVal),
      ∀ ev ∈ (runSchema n x).2, isCallGen ev = false) ∧
    (∀ (es : List (KeySchema × Node)) (obj : PyVal) (st : DState),
      ∀ ev ∈ (dictUsables es obj st).2, isCallGen ev = false) ∧
    (∀ (elem : Node) (idx : Nat) (items : List PyVal),
      ∀ ev ∈ (listItems elem idx items).2.2, isCallGen ev = false) ∧
    (∀ (ns : List Node) (r : SchemaResult),
      ∀ ev ∈ (allSteps ns r).2, isCallGen ev = false) := by
  apply nodeEval.mutual_induct
  case case1 =>
    intro x c ev hev
    simp [nodeEval] at hev
  case case2 =>
    intro x ts ev hev
    simp [nodeEval] at hev
  case case3 =>
    intro x c ev hev
    simp [nodeEval] at hev
    subst hev
    rfl
  case case4 =>
    intro x c ev hev
    simp [nodeEval] at hev
    subst hev
    rfl
  case case5 =>
    intro x u ev hev
    by_cases hc : u.isCall = true
    · simp [nodeEval, hc] at hev
      subst hev
      rfl
    · simp [nodeEval, hc] at hev
  case case6 =>
    intro x ns ih ev hev
    simp only [nodeEval] at hev
    exact ih ev hev
  case case7 =>
    intro x ns ih ev hev
    simp only [nodeEval] at hev
    exact ih ev hev
  case case8 =>
    intro steps kvs ih ev hev
    simp only [nodeEval] at hev
    exact ih ev hev
  case case9 =>
    intro x steps hnd ev hev
    cases x <;> first | exact (hnd _ rfl).elim | simp [nodeEval] at hev
  case case10 =>
    intro elem xs ih ev hev
    simp only [nodeEval] at hev
    exact ih ev hev
  case case11 =>
    intro x elem hnl ev hev
    cases x <;> first | exact (hnl _ rfl).elim | simp [nodeEval] at hev
  case case12 =>
    intro entries extra defaults kvs p1 ih6 ih2 ev hev
    simp only [nodeEval] at hev
    rcases List.mem_append.mp hev with h | h
    · exact ih6 ev h
    · exact ih2 ev h
  case case13 =>
    intro x entries extra defaults hnd ev hev
    cases x <;> first | exact (hnd _ rfl).elim | simp [nodeEval] at hev
  case case14 =>
    intro entries extra st ev hev
    simp [dictItems] at hev
  case case15 =>
    intro entries extra st kv rest p ih3 ih2 ev hev
    rw [dictItems_cons] at hev
    rcases List.mem_append.mp hev with h | h
    · exact ih3 ev h
    · exact ih2 ev h
  case case16 =>
    intro entries extra kv st h ev hev
    unfold dictHandleItem at hev
    rw [if_pos h] at hev
    simp at hev
  case case17 =>
    intro entries extra kv st hns hL ih ev hev
    unfold dictHandleItem at hev
    rw [if_neg hns, dif_pos hL] at hev
    exact ih ev hev
  case case18 =>
    intro entries kv st hns hnl vs hE ev hev
    unfold dictHandleItem at hev
    rw [if_neg hns, dif_neg hnl, dif_pos hE] at hev
    simp at hev
  case case19 =>
    intro entries kv st hns hnl vs hE ev hev
    unfold dictHandleItem at hev
    rw [if_neg hns, dif_neg hnl, dif_pos hE] at hev
    simp at hev
  case case20 =>
    intro entries kv st hns hnl vs hE ev hev
    unfold dictHandleItem at hev
    rw [if_neg hns, dif_neg hnl, dif_pos hE] at hev
    simp at hev
  case case21 =>
    intro entries extra kv st hns hnl vs hE h1 ih ev hev
    unfold dictHandleItem at hev
    rw [if_neg hns, dif_neg hnl, dif_neg hE, if_pos h1] at hev
    exact ih ev hev
  case case22 =>
    intro entries extra kv st hns hnl vs hE h1 ih ev hev
    unfold dictHandleItem at hev
    rw [if_neg hns, dif_neg hnl, dif_neg hE, if_neg h1] at hev
    exact ih ev hev
  case case23 =>
    intro obj r ev hev
    simp [anySteps] at hev
  case case24 =>
    intro obj r n rest d p hc ih ev hev
    rw [anySteps_cons2] at hev
    by_cases hc2 :
        (!errTruthy (runSchema n (nextInput r obj)).1.errors) = true
    · rw [if_pos hc2] at hev
      exact ih ev hev
    · exact absurd hc hc2
  case case25 =>
    intro obj r n rest d p hc ih ihd ih4 ev hev
    rw [anySteps_cons2] at hev
    by_cases hc2 :
        (!errTruthy (runSchema n (nextInput r obj)).1.errors) = true
    · rw [if_pos hc2] at hev
      exact ih ev hev
    · rw [if_neg hc2] at hev
      rcases List.mem_append.mp hev with h | h
      · exact ih ev h
      · exact ih4 ev h
  case case26 =>
    intro n x ih ev hev
    rw [runSchema_eq] at hev
    exact ih ev hev
  case case27 =>
    intro obj st ev hev
    simp [dictUsables] at hev
  case case28 =>
    intro obj st ks v rest hu p st2 ih ihr ev hev
    rw [dictUsables_cons, if_pos hu] at hev
    rcases List.mem_append.mp hev with h | h
    · exact ih ev h
    · exact ihr ev h
  case case29 =>
    intro obj st ks v rest hu ihr ev hev
    rw [dictUsables_cons, if_neg hu] at hev
    exact ihr ev hev
  case case30 =>
    intro elem idx ev hev
    simp [listItems] at hev
  case case31 =>
    intro elem idx v rest ih ihr ev hev
    rw [listItems_cons] at hev
    rcases List.mem_append.mp hev with h | h
    · exact ih ev h
    · exact ihr ev h
  case case32 =>
    intro r ev hev
    simp [allSteps] at hev
  case case33 =>
    intro r n rest p hc ih ev hev
    rw [allSteps_cons] at hev
    by_cases hc2 : errTruthy (runSchema n r.data).1.errors = true
    · rw [if_pos hc2] at hev
      exact ih ev hev
    · rw [if_neg hc2] at hev
      rcases List.mem_append.mp hev with h | h
      · exact ih ev h
      · exact absurd hc2 (by simp_all)
  case case34 =>
    intro r n rest p hc ih ihr ev hev
    rw [allSteps_cons] at hev
    by_cases hc2 : errTruthy (runSchema n r.data).1.errors = true
    · rw [if_pos hc2] at hev
      exact ih ev hev
    · rw [if_neg hc2] at hev
      rcases List.mem_append.mp hev with h | h
      · exact ih ev h
      · exact ihr ev h

/-- C6 (amended): a callable `Optional` default is computed at `Dict`
construction time, not per evaluation: the defaults comprehension of
`Dict.compile` accesses the `default` property twice per optional key —
once for the `is not NotSet` test and once for the stored value — so the
generator is invoked twice at construction and the second invocation's
result is stored; evaluation inserts the stored value for missing keys
and never invokes the generator, as no evaluation trace ever contains a
`callGen` event. -/
theorem dict_default_generated_at_construction (kind : KeyKind)
    (name : String) (g : Nat → PyVal) (vnode : Node) (ctr : Nat)
    (rest : List (PreKey × Node)) :
    compileDefaults ((⟨kind, true, .gen name g⟩, vnode) :: rest) ctr =
      ((keyRawUnder ⟨kind, true⟩, g (ctr + 1)) ::
        (compileDefaults rest (ctr + 2)).1,
       (compileDefaults rest (ctr + 2)).2.1,
       [.callGen name, .callGen name] ++
         (compileDefaults rest (ctr + 2)).2.2) ∧
    (∀ (n : Node) (x : PyVal),
      ∀ ev ∈ (runSchema n x).2, isCallGen ev = false) := by
  constructor
  · simp [compileDefaults, defaultProp]
  · exact eval_no_callGen.2.2.2.2.1

/-- C6 counterexample: with the schema
`{Optional('a', default=g): int}` for the counting generator `g n = n`,
compilation invokes `g` twice (construction trace
`[callGen g, callGen g]`) and stores `g 1`; evaluating the compiled
schema on `{}` returns the stored default `1` with an empty trace, so a
second evaluation returns the identical value and no evaluation triggers
a fresh generator invocation, although `g` returns distinct values on
distinct invocations. -/
theorem dict_default_generator_counterexample :
    dictCompile
        [(⟨.val (.str "a"), true, .gen "g" (fun n => .int (n : Int))⟩,
          .typeN [.intT])] .ignore 0 =
      (.dictN [(⟨.val (.str "a"), true⟩, .typeN [.intT])] .ignore
        [(.str "a", .int 1)], 2, [.callGen "g", .callGen "g"]) ∧
    runSchema
        (.dictN [(⟨.val (.str "a"), true⟩, .typeN [.intT])] .ignore
          [(.str "a", .int 1)]) (.dict []) =
      (⟨.dict [(.str "a", .int 1)], .map []⟩, []) ∧
    (fun n : Nat => PyVal.int (n : Int)) 0 ≠
      (fun n : Nat => PyVal.int (n : Int)) 1 := by
  refine ⟨rfl, ?_, by simp⟩
  rw [runSchema_eq]
  simp [nodeEval, dictUsables, dictItems, applyMissing, applyDefaults,
    assocSetDefault, assocFind, seenHasKS, ksBeq, kindKeyVal, pyEq,
    errTruthy, keyRawUnder, isUsable]

theorem stable_eval_all :
    (∀ (n : Node) (x : PyVal), stableNode n = true →
      (errTruthy (runSchema n x).1.errors = false →
        (runSchema n x).1 = ⟨x, .none⟩) ∧
      (errTruthy (runSchema n x).1.errors = true →
        isNone (runSchema n x).1.data = true)) ∧
    (∀ (entries : List (KeySchema × Node)) (extra : Extra)
        (items : List (PyVal × PyVal)) (st : DState), True) ∧
    (∀ (entries : List (KeySchema × Node)) (extra : Extra)
        (kv : PyVal × PyVal) (st : DState), True) ∧
    (∀ (ns : List Node) (obj : PyVal) (r : SchemaResult),
      stableList ns = true →
      (isNone r.data = true ∨
        (r.data = obj ∧ errTruthy r.errors = false)) →
      (errTruthy (anySteps ns obj r).1.errors = false →
        ((anySteps ns obj r).1 = ⟨obj, .none⟩ ∨
          (anySteps ns obj r).1 = r)) ∧
      (errTruthy (anySteps ns obj r).1.errors = true →
        isNone (anySteps ns obj r).1.data = true)) ∧
    (∀ (n : Node) (x : PyVal), stableNode n = true →
      (errTruthy (runSchema n x).1.errors = false →
        (runSchema n x).1 = ⟨x, .none⟩) ∧
      (errTruthy (runSchema n x).1.errors = true →
        isNone (runSchema n x).1.data = true)) ∧
    (∀ (es : List (KeySchema × Node)) (obj : PyVal) (st : DState), True) ∧
    (∀ (elem : Node) (idx : Nat) (items : List PyVal), True) ∧
    (∀ (ns : List Node) (r : SchemaResult), stableList ns = true →
      ∀ (x : PyVal), r = ⟨x, .none⟩ →
      (errTruthy (allSteps ns r).1.errors = false →
        (allSteps ns r).1 = ⟨x, .none⟩) ∧
      (errTruthy (allSteps ns r).1.errors = true →
        isNone (allSteps ns r).1.data = true)) := by
  apply nodeEval.mutual_induct
  case case1 =>
    intro x c hst
    by_cases he : pyEq x c = true <;>
      constructor <;> intro hx <;>
        simp_all [runSchema_eq, nodeEval, isNone]
  case case2 =>
    intro x ts hst
    by_cases he : isinstAny x ts = true <;>
      constructor <;> intro hx <;>
        simp_all [runSchema_eq, nodeEval, isNone]
  case case3 =>
    intro x c hst
    rw [runSchema_eq]
    by_cases he : (!pyTruthy (match c.fn x with
        | .ok v => v
        | .error _ => .bool false) &&
        !isNone (match c.fn x with
          | .ok v => v
          | .error _ => .bool false)) = true
    · rw [show (nodeEval (.validate c) x).1 =
          .error (validateErrMsg c.name x) by simp [nodeEval, he]]
      constructor
      · intro hx
        simp at hx
      · intro hx
        rfl
    · rw [show (nodeEval (.validate c) x).1 = .ok ⟨x, .none⟩ by
          simp [nodeEval, he]]
      constructor
      · intro hx
        rfl
      · intro hx
        cases hx
  case case4 =>
    intro x c hst
    simp [stableNode] at hst
  case case5 =>
    intro x u hst
    simp [stableNode] at hst
  case case6 =>
    intro x ns ih hst
    have hst2 : stableList ns = true := by simpa [stableNode] using hst
    have h8 := ih hst2 x rfl
    rw [runSchema_allN]
    exact h8
  case case7 =>
    intro x ns ih hst
    have hst2 : stableList ns = true := by simpa [stableNode] using hst
    have h4 := ih hst2 (Or.inr ⟨rfl, rfl⟩)
    rw [runSchema_anyN]
    refine ⟨?_, h4.2⟩
    intro hx
    rcases h4.1 hx with h | h
    · exact h
    · exact h
  case case8 =>
    intro steps kvs ih hst
    simp [stableNode] at hst
  case case9 =>
    intro x steps hnd hst
    simp [stableNode] at hst
  case case10 =>
    intro elem xs ih hst
    simp [stableNode] at hst
  case case11 =>
    intro x elem hnl hst
    simp [stableNode] at hst
  case case12 =>
    intro entries extra defaults kvs p1 ih6 ih2 hst
    simp [stableNode] at hst
  case case13 =>
    intro x entries extra defaults hnd hst
    simp [stableNode] at hst
  case case14 => intro entries extra st; trivial
  case case15 => intro entries extra st kv rest p ih3 ih2; trivial
  case case16 => intro entries extra kv st h; trivial
  case case17 => intro entries extra kv st hns hL ih; trivial
  case case18 => intro entries kv st hns hnl vs hE; trivial
  case case19 => intro entries kv st hns hnl vs hE; trivial
  case case20 => intro entries kv st hns hnl vs hE; trivial
  case case21 => intro entries extra kv st hns hnl vs hE h1 ih; trivial
  case case22 => intro entries extra kv st hns hnl vs hE h1 ih; trivial
  case case23 =>
    intro obj r hst hr
    rw [anySteps_nil]
    constructor
    · intro hx
      exact Or.inr rfl
    · intro hx
      rcases hr with h | h
      · exact h
      · have h2 : errTruthy r.errors = true := hx
        rw [h.2] at h2
        cases h2
  case case24 =>
    intro obj r n rest d p hc ih hst hr
    have hst1 : stableNode n = true := by
      simp [stableList] at hst
      exact hst.1
    have hdobj : nextInput r obj = obj := by
      rcases hr with h | h
      · simp [nextInput, h]
      · simp [nextInput, h.1]
    have hsucc : errTruthy (runSchema n (nextInput r obj)).1.errors =
        false := by
      have h2 : errTruthy (runSchema n d).1.errors = false := by
        simpa using hc
      exact h2
    have hd2 : (runSchema n (nextInput r obj)).1 =
        ⟨nextInput r obj, PyErr.none⟩ := (ih hst1).1 hsucc
    constructor
    · intro hx
      left
      have heq : (anySteps (n :: rest) obj r).1 =
          (runSchema n (nextInput r obj)).1 := by
        rw [anySteps_cons2, if_pos (by rw [hsucc]; rfl)]
      rw [heq, hd2, hdobj]
    · intro hx
      have heq : errTruthy (anySteps (n :: rest) obj r).1.errors =
          false := by
        rw [anySteps_cons2, if_pos (by rw [hsucc]; rfl)]
        exact hsucc
      rw [heq] at hx
      cases hx
  case case25 =>
    intro obj r n rest d p hc ih ihd ih4 hst hr
    have hst1 : stableNode n = true := by
      simp [stableList] at hst
      exact hst.1
    have hstr : stableList rest = true := by
      simp [stableList] at hst
      exact hst.2
    have hdobj : nextInput r obj = obj := by
      rcases hr with h | h
      · simp [nextInput, h]
      · simp [nextInput, h.1]
    have hfail : errTruthy (runSchema n (nextInput r obj)).1.errors =
        true := by
      have h2 : errTruthy (runSchema n d).1.errors = true := by
        revert hc
        cases errTruthy (runSchema n d).1.errors <;> simp
      exact h2
    have hpd : isNone (runSchema n (nextInput r obj)).1.data = true :=
      (ih hst1).2 hfail
    have hrec := ih4 hstr (Or.inl hpd)
    have heq : anySteps (n :: rest) obj r =
        ((anySteps rest obj (runSchema n (nextInput r obj)).1).1,
         (runSchema n (nextInput r obj)).2 ++
           (anySteps rest obj (runSchema n (nextInput r obj)).1).2) := by
      rw [anySteps_cons2, if_neg (by rw [hfail]; simp)]
    constructor
    · intro hx
      rw [heq] at hx ⊢
      rcases hrec.1 hx with h | h
      · exact Or.inl h
      · have h2 : (anySteps rest obj
            (runSchema n (nextInput r obj)).1).1 =
            (runSchema n (nextInput r obj)).1 := h
        have hx2 : errTruthy (anySteps rest obj
            (runSchema n (nextInput r obj)).1).1.errors = false := hx
        rw [h2, hfail] at hx2
        cases hx2
    · intro hx
      rw [heq] at hx ⊢
      exact hrec.2 hx
  case case26 =>
    intro n x ih
    exact ih
  case case27 => intro obj st; trivial
  case case28 => intro obj st ks v rest hu p st2 ih ihr; trivial
  case case29 => intro obj st ks v rest hu ihr; trivial
  case case30 => intro elem idx; trivial
  case case31 => intro elem idx v rest ih ihr; trivial
  case case32 =>
    intro r hst x hr
    rw [allSteps_nil]
    subst hr
    constructor
    · intro hx
      rfl
    · intro hx
      cases hx
  case case33 =>
    intro r n rest p hc ih hst x hr
    have hst1 : stableNode n = true := by
      simp [stableList] at hst
      exact hst.1
    have hc2 : errTruthy (runSchema n r.data).1.errors = true := hc
    have heq : allSteps (n :: rest) r =
        ((runSchema n r.data).1, (runSchema n r.data).2) := by
      rw [allSteps_cons, if_pos hc2]
    constructor
    · intro hx
      rw [heq] at hx
      have h3 : errTruthy (runSchema n r.data).1.errors = false := hx
      rw [hc2] at h3
      cases h3
    · intro hx
      rw [heq]
      exact (ih hst1).2 hc2
  case case34 =>
    intro r n rest p hc ih ihr hst x hr
    have hst1 : stableNode n = true := by
      simp [stableList] at hst
      exact hst.1
    have hstr : stableList rest = true := by
      simp [stableList] at hst
      exact hst.2
    have hsucc : errTruthy (runSchema n r.data).1.errors = false := by
      revert hc
      cases errTruthy (runSchema n r.data).1.errors <;> simp
    have hp1 : (runSchema n r.data).1 = ⟨r.data, .none⟩ :=
      (ih hst1).1 hsucc
    have hdx : r.data = x := by rw [hr]
    have hrec := ihr hstr x (by rw [hp1, hdx])
    have heq : allSteps (n :: rest) r =
        ((allSteps rest (runSchema n r.data).1).1,
         (runSchema n r.data).2 ++
           (allSteps rest (runSchema n r.data).1).2) := by
      rw [allSteps_cons, if_neg (by rw [hsucc]; simp)]
    constructor
    · intro hx
      rw [heq] at hx ⊢
      exact hrec.1 hx
    · intro hx
      rw [heq] at hx ⊢
      exact hrec.2 hx

/-- C9 (amended): idempotence holds on the stable grammar — schemas built
from literal, type and predicate leaves combined with `All` and `Any`.
On such a schema a successful evaluation returns the input unchanged, so
re-evaluating the returned data reproduces the identical outcome, and a
failed evaluation carries no data.  General schemas are not idempotent:
a structural schema can succeed with output data different from its
input. -/
theorem stable_schema_idempotent (n : Node) (x : PyVal)
    (hst : stableNode n = true)
    (hs : errTruthy (runSchema n x).1.errors = false) :
    (runSchema n x).1 = ⟨x, .none⟩ ∧
    runSchema n ((runSchema n x).1.data) = runSchema n x ∧
    (∀ (m : Node) (y : PyVal), stableNode m = true →
      errTruthy (runSchema m y).1.errors = true →
      isNone (runSchema m y).1.data = true) := by
  have h1 := (stable_eval_all.1 n x hst).1 hs
  refine ⟨h1, ?_, ?_⟩
  · rw [h1]
  · intro m y hm hf
    exact (stable_eval_all.1 m y hm).2 hf

/-- C9 counterexample: the empty structural schema (ignore-extra policy)
evaluates `\x7b'a': 1\x7d` successfully — the error map is empty — with
output data `None`; re-evaluating that output data fails with a mapping
type error, so successful output is not in general a fixed point of
re-validation. -/
theorem schema_idempotence_counterexample :
    runSchema (.dictN [] .ignore []) (.dict [(.str "a", .int 1)]) =
      (⟨.none, .map []⟩, []) ∧
    errTruthy (.map []) = false ∧
    runSchema (.dictN [] .ignore []) PyVal.none =
      (⟨.none, .msg (typeErrMsg [.mappingT] PyVal.none)⟩, []) ∧
    errTruthy (.msg (typeErrMsg [.mappingT] PyVal.none)) = true := by
  refine ⟨?_, rfl, ?_, by simp⟩
  · rw [runSchema_eq]
    simp [nodeEval, dictUsables, dictItems, dictHandleItem, applyMissing,
      applyDefaults, seenHasVal, pyEq, pyEqPairs, pyEqList, pyFindEq,
      errTruthy, extendWithResult, assocUpdate, dictLookup, dictProbe,
      dictProbeAux]
  · rw [runSchema_eq]
    simp [nodeEval]

/-- Closed witness for the stable-grammar idempotence theorem: the
pipeline `All(int)` accepts `3` and returns it unchanged. -/
theorem stable_schema_idempotent_witness :
    stableNode (.allN [.typeN [.intT]]) = true ∧
    errTruthy (runSchema (.allN [.typeN [.intT]]) (.int 3)).1.errors =
      false ∧
    ((runSchema (.allN [.typeN [.intT]]) (.int 3)).1 =
        ⟨.int 3, .none⟩ ∧
     runSchema (.allN [.typeN [.intT]])
        ((runSchema (.allN [.typeN [.intT]]) (.int 3)).1.data) =
      runSchema (.allN [.typeN [.intT]]) (.int 3) ∧
     (∀ (m : Node) (y : PyVal), stableNode m = true →
        errTruthy (runSchema m y).1.errors = true →
        isNone (runSchema m y).1.data = true)) := by
  have h1 : stableNode (.allN [.typeN [.intT]]) = true := by
    simp [stableNode, stableList]
  have h2 : errTruthy
      (runSchema (.allN [.typeN [.intT]]) (.int 3)).1.errors = false := by
    simp [runSchema_eq, nodeEval, allSteps, isinstAny, isinst, errTruthy]
  exact ⟨h1, h2, stable_schema_idempotent _ _ h1 h2⟩

end Schemable
